import Mathlib

/-!
# Bramble: store root padding, lockfile pins, module resolution, store writes

A shallow embedding of the parts of `pkg/bramble` and `pkg/brambleproject`
that the specification talks about, followed by the theorems that settle
each statement of the specification against that embedding.

Conventions of the embedding:

* a Go `string` is its byte sequence, `List Char`, one list element per byte;
* a Go `int` is an `Int` wrapped to 64 bits after every arithmetic step;
* a Go function returning `(value, error)` returns a pair whose second
  component is `none` for a `nil` error;
* the operating system is explicit state: the functions that read the file
  system take the state as an argument, those that write it return the new one.
-/

set_option autoImplicit false

namespace BrambleModel

/-! ## Go strings and integers -/

/-- Go `string`: a byte sequence, one list element per byte. -/
abbrev GoString := List Char

/-- Go `int` arithmetic on a 64-bit platform: results wrap to `[-2^63, 2^63)`. -/
def wrapInt (x : Int) : Int :=
  (x + 9223372036854775808) % 18446744073709551616 - 9223372036854775808

/-- Go `strings.HasPrefix`: `len(s) >= len(pre) && s[:len(pre)] == pre`. -/
def HasPrefix (s pre : GoString) : Bool :=
  decide (pre.length ≤ s.length) && decide (s.take pre.length = pre)

/-- Go `strings.HasSuffix`: `len(s) >= len(suf) && s[len(s)-len(suf):] == suf`. -/
def HasSuffix (s suf : GoString) : Bool :=
  decide (suf.length ≤ s.length) && decide (s.drop (s.length - suf.length) = suf)

/-- Go `strings.TrimSuffix`: `s` without the trailing `suf`, or `s` itself. -/
def TrimSuffix (s suf : GoString) : GoString :=
  if HasSuffix s suf then s.take (s.length - suf.length) else s

/-! ## Go `path/filepath` on Unix

`Clean` works element by element: the path is cut at every separator, empty
and `.` elements are dropped, a `..` element removes the element before it
(at the root it is dropped, in a relative path with nothing to remove it is
kept), and what is left is joined again with single separators. -/

/-- The elements of a path: the pieces between separators. -/
def splitSep : GoString → List GoString
  | [] => [[]]
  | c :: cs =>
    if c = '/' then [] :: splitSep cs
    else
      match splitSep cs with
      | [] => [[c]]
      | e :: es => (c :: e) :: es

/-- Go `strings.Join(elems, "/")`. -/
def joinSep : List GoString → GoString
  | [] => []
  | [e] => e
  | e :: f :: es => e ++ '/' :: joinSep (f :: es)

/-- One step of `Clean`: `out` holds the elements written so far, last one
first; `elem` is the next element read. -/
def cleanStep (rooted : Bool) (out : List GoString) (elem : GoString) : List GoString :=
  if elem = [] then out
  else if elem = ['.'] then out
  else if elem = ['.', '.'] then
    match out with
    | top :: rest =>
      if top ≠ ['.', '.'] then rest
      else if !rooted then elem :: out
      else out
    | [] => if !rooted then [elem] else []
  else elem :: out

/-- Go `filepath.Clean` (Unix). -/
def Clean (path : GoString) : GoString :=
  match path with
  | [] => ['.']
  | c :: _ =>
    let rooted := decide (c = '/')
    let out := (splitSep path).foldl (cleanStep rooted) []
    let body := joinSep out.reverse
    if rooted then '/' :: body
    else if body = [] then ['.']
    else body

/-- Go `filepath.Join` (Unix): the elements from the first non-empty one on,
joined with separators and cleaned; the empty string when all are empty. -/
def Join (elem : List GoString) : GoString :=
  match elem.dropWhile (fun e => decide (e = [])) with
  | [] => []
  | rest => Clean (joinSep rest)

/-- Go `filepath.IsAbs` (Unix). -/
def IsAbs (path : GoString) : Bool := HasPrefix path ['/']

/-! ## `pkg/bramble/store.go`, `pkg/bramble/path.go`: the padded store directory -/

/-- The errors of packages `bramble` and `brambleproject` that the embedding
tells apart. -/
inductive Err
  /-- Go `errors.Errorf("Bramble location creates a path that is too long. ...")` -/
  | pathTooLong (bramblePath : GoString) (paddingLen : Int)
  /-- Go `errors.Wrap(err, "error creating a temporary file for a write to the store")` -/
  | tempFile
  /-- Go `errors.Wrap(err, "error writing to the temporary store file")` -/
  | copyFailed
  /-- Go `errHashMismatch` -/
  | hashMismatch
  /-- Go `errors.Wrap(er, "error moving file into store")` -/
  | moveIntoStore
  /-- Go `errors.Errorf("can't find module %s", module)` -/
  | cantFindModule (module : GoString)
  /-- Go `errModuleDoesNotExist` -/
  | moduleDoesNotExist
  /-- Go `errors.Errorf("found existing hash for %q with value %q not %q, ...")` -/
  | existingHash (url v hash : GoString)
  /-- Go `errors.Errorf("path %q is not a bramblefile", path)` -/
  | notBramblefile (path : GoString)
  /-- Go `errors.Wrap(os.ErrNotExist, path)` -/
  | notExist (path : GoString)
  /-- Go `errors.Wrapf(err, "%q is not relative to the project directory %q", ...)` -/
  | notRelative (path location : GoString)
  /-- the error of `filepath.Rel`: "Rel: can't make ... relative to ..." -/
  | relFailed (targpath basepath : GoString)
  /-- the error of `os.OpenFile` -/
  | openFailed (path : GoString)
  /-- the error of `toml.DecodeReader` -/
  | decodeFailed (path : GoString)
  /-- Go `ErrNotInProject` -/
  | notInProject
  /-- Go `errors.Wrapf(err, "can't convert relative working directory path %q ...", wd)` -/
  | absFailed (wd : GoString)
  /-- Go `errors.New("build context is dirty, can't call derivation after cmd() or other builtins")` -/
  | buildContextDirty
  /-- the error of `starlark.UnpackArgs` for the named builtin -/
  | unpackArgs (fnname : GoString)
  /-- the error of `starutil.ValueToString` -/
  | valueToString (msg : GoString)
  /-- Go `errors.New("cp doesn't support relative paths yet")` -/
  | cpRelative
  /-- the error of the package function `cp` -/
  | cpFailed (msg : GoString)
  /-- the error of `os.Mkdir` -/
  | mkdirFailed (path : GoString)
  /-- Go `io.EOF` -/
  | eof
  /-- Go `errQuiet` -/
  | quiet
  /-- Go `errors.New("can't initialize Bramble twice")` -/
  | initTwice
  /-- Go `errors.Wrap(err, "error finding test files")` -/
  | findingTestFiles
  /-- the error of `ioutil.ReadDir` -/
  | readDirFailed (path : GoString)
  /-- an error that a Starlark call or a step of `init` hands up -/
  | starlark (msg : GoString)
  deriving DecidableEq

/-- Go `PathPaddingCharacters` -/
def PathPaddingCharacters : GoString := "bramble_store_padding".toList

/-- Go `PathPaddingLength` (`PaddingLength` in path.go) -/
def PathPaddingLength : Int := 50

/-- The loop `for i := 0; i < repetitions; i++ { name += "/" + PathPaddingCharacters }`,
with `n` iterations left. -/
def paddingLoop : Nat → GoString → GoString
  | 0, name => name
  | n + 1, name => paddingLoop n (name ++ ('/' :: PathPaddingCharacters))

/-- The value of `paddingLen` in `calculatePaddedDirectoryName`. -/
def paddingLenOf (bramblePath : GoString) (paddingLength : Int) : Int :=
  wrapInt (wrapInt (wrapInt (paddingLength - (bramblePath.length : Int)) - 1) - 1)

namespace StoreGo

/-- Go `calculatePaddedDirectoryName` of store.go. -/
def calculatePaddedDirectoryName (bramblePath : GoString) (paddingLength : Int) :
    GoString × Option Err :=
  let paddingLen := paddingLenOf bramblePath paddingLength
  if paddingLen ≤ 0 then
    ([], some (Err.pathTooLong bramblePath paddingLen))
  else
    let paddingSize : Int := (PathPaddingCharacters.length : Int)
    let repetitions := Int.tdiv paddingLen (wrapInt (paddingSize + 1))
    let extra := Int.tmod paddingLen (wrapInt (paddingSize + 1))
    let storeDirectoryName := paddingLoop repetitions.toNat []
    (storeDirectoryName ++ ('/' :: PathPaddingCharacters.take extra.toNat), none)

/-- The part of `Store.ensureBramblePath` that allocates the store root:
`storeDirectoryName, err = calculatePaddedDirectoryName(s.bramblePath, T)`,
then `s.storePath = s.joinBramblePath(storeDirectoryName)`. -/
def allocateStorePath (bramblePath : GoString) (paddingLength : Int) :
    GoString × Option Err :=
  match calculatePaddedDirectoryName bramblePath paddingLength with
  | (_, some err) => ([], some err)
  | (storeDirectoryName, none) => (Join [bramblePath, storeDirectoryName], none)

end StoreGo

namespace PathGo

/-- Go `calculatePaddedDirectoryName` of path.go (its `fmt.Println` of the
arguments leaves the returned values alone). -/
def calculatePaddedDirectoryName (bramblePath : GoString) (paddingLength : Int) :
    GoString × Option Err :=
  let paddingLen := paddingLenOf bramblePath paddingLength
  if paddingLen ≤ 0 then
    ([], some (Err.pathTooLong bramblePath paddingLen))
  else
    let paddingSize : Int := (PathPaddingCharacters.length : Int)
    let repetitions := Int.tdiv paddingLen (wrapInt (paddingSize + 1))
    let extra := Int.tmod paddingLen (wrapInt (paddingSize + 1))
    let storeDirectoryName := paddingLoop repetitions.toNat []
    (storeDirectoryName ++ ('/' :: PathPaddingCharacters.take extra.toNat), none)

end PathGo

/-! ## More of `path/filepath`: `Rel` -/

/-- The elements `filepath.Rel` walks over in a cleaned path: none for the
empty string, the single empty element for the root, otherwise the pieces
between separators. -/
def relElems (s : GoString) : List GoString :=
  if s = [] then [] else if s = ['/'] then [[]] else splitSep s

/-- The loop of `filepath.Rel` that positions both paths at their first
differing elements: what is left of the base and of the target. -/
def stripCommon : List GoString → List GoString → List GoString × List GoString
  | b :: bs, t :: ts => if t = b then stripCommon bs ts else (b :: bs, t :: ts)
  | bs, ts => (bs, ts)

/-- Go `filepath.Rel` (Unix). -/
def Rel (basepath targpath : GoString) : GoString × Option Err :=
  let base := Clean basepath
  let targ := Clean targpath
  if targ = base then (['.'], none)
  else
    let base := if base = ['.'] then [] else base
    let baseSlashed := HasPrefix base ['/']
    let targSlashed := HasPrefix targ ['/']
    if baseSlashed ≠ targSlashed then ([], some (Err.relFailed targpath basepath))
    else
      match stripCommon (relElems base) (relElems targ) with
      | (b :: bs, t :: ts) =>
        if b = ['.', '.'] then ([], some (Err.relFailed targpath basepath))
        else (joinSep (List.replicate (b :: bs).length ['.', '.']) ++ '/' :: joinSep (t :: ts), none)
      | (b :: bs, []) => (joinSep (List.replicate (b :: bs).length ['.', '.']), none)
      | ([], ts) => (joinSep ts, none)

/-! ## The file system -/

/-- What `os.Stat` finds at a path: a directory or a file with its bytes. -/
inductive Node
  | dir
  | file (content : GoString)
  deriving DecidableEq

/-- The file system: what is found at each path, if anything. -/
abbrev FileSystem := GoString → Option Node

/-- Go `pathExists` of bramble.go: `os.Stat` returns no error. -/
def pathExists (fs : FileSystem) (path : GoString) : Bool :=
  (fs path).isSome

/-- Go `fileExists` of bramble.go: `os.Stat` returns no error and `!fi.IsDir()`. -/
def fileExists (fs : FileSystem) (path : GoString) : Bool :=
  match fs path with
  | some (Node.file _) => true
  | _ => false

/-- Modelled from the spec: `fileutil.FileExists` is not among the sources;
the spec asks of the path "to ... exist", and the helper is taken to be the
`fileExists` of bramble.go, a successful `os.Stat` of something that is no
directory. -/
def FileExists (fs : FileSystem) (path : GoString) : Bool :=
  fileExists fs path

/-- Go `ioutil.TempFile(dir, "")`, where `rnd` is the random name drawn: a new
empty file `dir/rnd`, or failure when `dir` is no directory or the name is
taken. -/
def TempFile (fs : FileSystem) (dir rnd : GoString) : Option (GoString × FileSystem) :=
  if fs dir = some Node.dir ∧ fs (Join [dir, rnd]) = none then
    some (Join [dir, rnd], Function.update fs (Join [dir, rnd]) (some (Node.file [])))
  else none

/-- Go `os.Rename` of a file: the file moves to the new path, replacing a file
there; it fails when there is no file at the old path or a directory at the
new one. -/
def Rename (fs : FileSystem) (oldpath newpath : GoString) : Option FileSystem :=
  match fs oldpath, fs newpath with
  | some (Node.file _), some Node.dir => none
  | some (Node.file c), _ =>
    some (Function.update (Function.update fs oldpath none) newpath (some (Node.file c)))
  | _, _ => none

/-- A file read by `toml.DecodeReader`, as far as the decoder can tell: it
cannot be opened, it is absent, it holds what the decoder rejects, or it holds
a document that decodes to `v` (the empty file holds the empty document). -/
inductive TomlFile (α : Type)
  | unopenable
  | absent
  | garbled
  | doc (v : α)
  deriving DecidableEq

/-! ## Go maps -/

/-- Go `v, ok := m[k]` on a Go map held as a list of key/value pairs. -/
def mapGet {β : Type} (m : List (GoString × β)) (k : GoString) : Option β :=
  match m with
  | [] => none
  | (k0, v0) :: rest => if k = k0 then some v0 else mapGet rest k

/-- Go `m[k] = v` on a Go map held as a list of key/value pairs. -/
def mapSet {β : Type} (m : List (GoString × β)) (k : GoString) (v : β) : List (GoString × β) :=
  match m with
  | [] => [(k, v)]
  | (k0, v0) :: rest => if k = k0 then (k0, v) :: rest else (k0, v0) :: mapSet rest k v

/-! ## `pkg/bramble/store.go`: writes to the store -/

/-- Go `Store` -/
structure Store where
  bramblePath : GoString
  storePath : GoString
  deriving DecidableEq

/-- Go `Store.joinStorePath` -/
def Store.joinStorePath (s : Store) (v : List GoString) : GoString :=
  Join (s.storePath :: v)

/-- Go `Store.joinBramblePath` -/
def Store.joinBramblePath (s : Store) (v : List GoString) : GoString :=
  Join (s.bramblePath :: v)

/-- The hasher of `NewHasher()`, which is not among the sources: what
`hasher.String()` and `hasher.Sha256Hex()` return once the given bytes have
been written to it. -/
structure Hasher where
  String : GoString → GoString
  Sha256Hex : GoString → GoString

/-- An `io.Reader`: the bytes it yields, and whether it then ends with an
error instead of `io.EOF`. -/
structure Reader where
  data : GoString
  fails : Bool
  deriving DecidableEq

/-- Go `Store.writeReader`; `rnd` is the random name `ioutil.TempFile` draws.
Returns `(contentHash, path, err)` and the file system after the call. -/
def Store.writeReader (s : Store) (hasher : Hasher) (fs : FileSystem) (rnd : GoString)
    (src : Reader) (name validateHash : GoString) :
    (GoString × GoString × Option Err) × FileSystem :=
  match TempFile fs (s.joinBramblePath ["tmp".toList]) rnd with
  | none => (([], [], some Err.tempFile), fs)
  | some (file, fs1) =>
    let fs2 := Function.update fs1 file (some (Node.file src.data))
    if src.fails then (([], [], some Err.copyFailed), fs2)
    else
      let fileName := hasher.String src.data
      if validateHash ≠ [] ∧ hasher.Sha256Hex src.data ≠ validateHash then
        ((hasher.Sha256Hex src.data, [], some Err.hashMismatch), fs2)
      else
        let fileName := if name ≠ [] then fileName ++ ('-' :: name) else fileName
        let path := s.joinStorePath [fileName]
        match Rename fs2 file path with
        | none => (([], [], some Err.moveIntoStore), fs2)
        | some fs3 => ((hasher.Sha256Hex src.data, path, none), fs3)

/-- Go `derivationMap`; a nil `Derivations` map is `none`. -/
structure derivationMap where
  Location : GoString
  Derivations : Option (List (GoString × List GoString))
  deriving DecidableEq

/-- The loop `for k, v := range derivations { dm.Derivations[k] = v }`. -/
def rangeAssign (dst src : List (GoString × List GoString)) : List (GoString × List GoString) :=
  src.foldl (fun m kv => mapSet m kv.1 kv.2) dst

/-- The path of the registry file of `location`:
`filepath.Join(s.joinBramblePath("var/config-registry"), hash+"-metadata.toml")`
with `hash` the hasher's string for the bytes of `location`. -/
def Store.configFileLocation (s : Store) (hasher : Hasher) (location : GoString) : GoString :=
  Join [s.joinBramblePath ["var/config-registry".toList],
    hasher.String location ++ "-metadata.toml".toList]

/-- Go `Store.writeConfigLink` from `f.Truncate(0)` on, once the registry file at
`configFileLocation` has been decoded into `dm`. -/
def Store.linkAfterDecode (reg : GoString → TomlFile derivationMap)
    (configFileLocation : GoString) (dm : derivationMap)
    (location : GoString) (derivations : List (GoString × List GoString)) :
    Option Err × (GoString → TomlFile derivationMap) :=
  let truncated := Function.update reg configFileLocation
    (TomlFile.doc { Location := [], Derivations := none })
  let dm := { dm with Location := location }
  let dm :=
    match dm.Derivations with
    | none => { dm with Derivations := some [] }
    | some _ => dm
  let dm := { dm with Derivations := some (rangeAssign (dm.Derivations.getD []) derivations) }
  (none, Function.update truncated configFileLocation (TomlFile.doc dm))

/-- Go `Store.writeConfigLink`; `reg` holds the files of the registry by path.
Returns the error and the files after the call. An absent file is created
empty by `O_CREATE` and decodes to the zero `derivationMap`. -/
def Store.writeConfigLink (s : Store) (hasher : Hasher)
    (reg : GoString → TomlFile derivationMap)
    (location : GoString) (derivations : List (GoString × List GoString)) :
    Option Err × (GoString → TomlFile derivationMap) :=
  match reg (s.configFileLocation hasher location) with
  | TomlFile.unopenable => (some (Err.openFailed (s.configFileLocation hasher location)), reg)
  | TomlFile.garbled => (some (Err.decodeFailed (s.configFileLocation hasher location)), reg)
  | TomlFile.absent =>
    Store.linkAfterDecode reg (s.configFileLocation hasher location)
      { Location := [], Derivations := none } location derivations
  | TomlFile.doc dm =>
    Store.linkAfterDecode reg (s.configFileLocation hasher location) dm location derivations

/-! ## `pkg/brambleproject/project.go` -/

/-- Go `BrambleExtension` -/
def BrambleExtension : GoString := ".bramble".toList

/-- Go `LockFile`; a nil `URLHashes` map (none in the document) is `none`. -/
structure LockFile where
  URLHashes : Option (List (GoString × GoString))
  deriving DecidableEq

/-- Go `Project`, with `config.Module.Name` as `moduleName`. -/
structure Project where
  moduleName : GoString
  Location : GoString
  wd : GoString
  lockFile : LockFile
  deriving DecidableEq

/-- The path of the lockfile: `filepath.Join(p.Location, "bramble.lock")`. -/
def Project.lockPath (p : Project) : GoString :=
  Join [p.Location, "bramble.lock".toList]

/-- Go `Project.AddURLHashToLockfile` from `f.Truncate(0)` on, once the lockfile
at `lockPath` has been decoded into `lf.URLHashes = m`. -/
def Project.addAfterDecode (files : GoString → TomlFile LockFile) (lockPath : GoString)
    (m : List (GoString × GoString)) (url hash : GoString) :
    Option Err × (GoString → TomlFile LockFile) :=
  let truncated := Function.update files lockPath (TomlFile.doc { URLHashes := none })
  let (v, ok) :=
    match mapGet m url with
    | some v => (v, true)
    | none => ([], false)
  if ok = true ∧ v ≠ hash then (some (Err.existingHash url v hash), truncated)
  else
    (none, Function.update truncated lockPath
      (TomlFile.doc { URLHashes := some (mapSet m url hash) }))

/-- Go `Project.AddURLHashToLockfile`; `files` holds the lockfiles by path.
Returns the error and the files after the call. An absent file is created
empty by `O_CREATE`; decoding leaves `lf.URLHashes`, set to the empty map
before, as it is when the document has no such table. -/
def Project.AddURLHashToLockfile (p : Project) (files : GoString → TomlFile LockFile)
    (url hash : GoString) : Option Err × (GoString → TomlFile LockFile) :=
  match files p.lockPath with
  | TomlFile.unopenable => (some (Err.openFailed p.lockPath), files)
  | TomlFile.garbled => (some (Err.decodeFailed p.lockPath), files)
  | TomlFile.absent => Project.addAfterDecode files p.lockPath [] url hash
  | TomlFile.doc lf => Project.addAfterDecode files p.lockPath (lf.URLHashes.getD []) url hash

/-- Go `Project.FilepathToModuleName` -/
def Project.FilepathToModuleName (p : Project) (fs : FileSystem) (path : GoString) :
    GoString × Option Err :=
  if !HasSuffix path BrambleExtension then ([], some (Err.notBramblefile path))
  else if !FileExists fs path then ([], some (Err.notExist path))
  else
    match Rel p.Location path with
    | (_, some _) => ([], some (Err.notRelative path p.Location))
    | (rel, none) =>
      let rel :=
        if HasSuffix path ("default".toList ++ BrambleExtension) then
          TrimSuffix rel ("default".toList ++ BrambleExtension)
        else TrimSuffix rel BrambleExtension
      let rel := TrimSuffix rel ['/']
      (p.moduleName ++ "/".toList ++ rel, none)

/-! ## `pkg/bramble/bramble.go`: module resolution -/

/-- Go `extension` -/
def extension : GoString := ".bramble".toList

/-- Go `Bramble`, with `config.Module.Name` as `moduleName`. -/
structure Bramble where
  moduleName : GoString
  configLocation : GoString
  afterDerivation : Bool
  deriving DecidableEq

/-- The evaluator: what `starlark.ExecFile(b.thread, path, nil, b.predeclared)`
returns for a path, `γ` being the type of the globals. -/
structure Evaluator (γ : Type) where
  ExecFile : GoString → Option γ × Option Err

/-- Go `Bramble.resolveModule`. Returns `(globals, err)` and the files handed to
the evaluator during the call. -/
def Bramble.resolveModule {γ : Type} (b : Bramble) (fs : FileSystem) (ev : Evaluator γ)
    (module : GoString) : (Option γ × Option Err) × List GoString :=
  if !HasPrefix module b.moduleName then
    ((none, some (Err.cantFindModule module)), [])
  else
    let path := module.drop b.moduleName.length
    let path := Join [b.configLocation, path]
    let directoryWithNameExists := pathExists fs path
    let directoryHasDefaultDotBramble :=
      if directoryWithNameExists then fileExists fs (path ++ "/default.bramble".toList)
      else false
    let fileWithNameExists := fileExists fs (path ++ extension)
    if directoryWithNameExists && directoryHasDefaultDotBramble then
      (ev.ExecFile (path ++ "/default.bramble".toList), [path ++ "/default.bramble".toList])
    else if fileWithNameExists then
      (ev.ExecFile (path ++ extension), [path ++ extension])
    else
      ((none, some Err.moduleDoesNotExist), [])

/-! ## What a registry file and a lockfile hold, and concrete inputs -/

/-- The pins a lockfile holds when it can be read: none for an absent or an
empty file, otherwise the `URLHashes` table of its document. -/
def lockEntries : TomlFile LockFile → Option (List (GoString × GoString))
  | TomlFile.absent => some []
  | TomlFile.doc v => some (v.URLHashes.getD [])
  | _ => none

/-- The derivations a registry file holds when it can be read: none for an
absent or an empty file, otherwise the `Derivations` table of its document. -/
def registryEntries : TomlFile derivationMap → Option (List (GoString × List GoString))
  | TomlFile.absent => some []
  | TomlFile.doc v => some (v.Derivations.getD [])
  | _ => none

/-- A project at `/proj` with module name `example.com/proj`. -/
def exampleProject : Project :=
  { moduleName := "example.com/proj".toList, Location := "/proj".toList,
    wd := "/proj".toList, lockFile := { URLHashes := none } }

/-- Lockfiles: `/proj/bramble.lock` pins `X` to `a`. -/
def exampleLockfiles : GoString → TomlFile LockFile := fun path =>
  if path = "/proj/bramble.lock".toList then
    TomlFile.doc { URLHashes := some [("X".toList, "a".toList)] }
  else TomlFile.absent

/-- A store at `/b` with store root `/b/store`. -/
def exampleStore : Store :=
  { bramblePath := "/b".toList, storePath := "/b/store".toList }

/-- A registry record for `/proj` with the derivation `d` and its output `out`. -/
def exampleRecord : derivationMap :=
  { Location := "/proj".toList, Derivations := some [("d".toList, ["out".toList])] }

/-- A stand-in hasher for concrete inputs: the string of some bytes is `h`
followed by their number in unary, the hex digest the bytes themselves. -/
def exampleHasher : Hasher :=
  { String := fun bytes => 'h' :: List.replicate bytes.length '1',
    Sha256Hex := fun bytes => bytes }

/-- A registry in which every file holds the record of `/proj` with the
derivations `d` (value `out`) and `e` (value `lib`). -/
def exampleRegistry : GoString → TomlFile derivationMap := fun _ =>
  TomlFile.doc { Location := "/proj".toList,
                 Derivations := some [("d".toList, ["out".toList]), ("e".toList, ["lib".toList])] }

/-- The files of the project at `/proj`: `sub/default.bramble` and
`sub.bramble` side by side, and a file `mydefault.bramble`. -/
def exampleProjectFiles : FileSystem := fun path =>
  if path = "/proj".toList then some Node.dir
  else if path = "/proj/sub".toList then some Node.dir
  else if path = "/proj/sub/default.bramble".toList then some (Node.file [])
  else if path = "/proj/sub.bramble".toList then some (Node.file [])
  else if path = "/proj/mydefault.bramble".toList then some (Node.file [])
  else none

/-- The `Bramble` value of the project at `/proj`. -/
def exampleBramble : Bramble :=
  { moduleName := "example.com/proj".toList, configLocation := "/proj".toList,
    afterDerivation := false }

/-- An evaluator whose globals are the path of the file it was given. -/
def exampleEvaluator : Evaluator GoString :=
  { ExecFile := fun path => (some path, none) }

/-- The directories of the store at `/b`, with nothing in them. -/
def exampleStoreFiles : FileSystem := fun path =>
  if path = "/b".toList then some Node.dir
  else if path = "/b/tmp".toList then some Node.dir
  else if path = "/b/store".toList then some Node.dir
  else none

/-- A name that can stand as one element of a path: not empty, not `.` or
`..`, without a separator. -/
def isFileName (e : GoString) : Prop :=
  e ≠ [] ∧ e ≠ ['.'] ∧ e ≠ ['.', '.'] ∧ '/' ∉ e

instance (e : GoString) : Decidable (isFileName e) := by
  unfold isFileName
  infer_instance

/-- A reader that yields the bytes `hello` and ends without error. -/
def exampleSource : Reader :=
  { data := "hello".toList, fails := false }

/-! ## `pkg/brambleproject/project.go`: locating the project -/

/-- Go `filepath.Abs` (Unix); `cwd` is what `os.Getwd` returns, `none` when it
fails. -/
def Abs (cwd : Option GoString) (path : GoString) : GoString × Option Err :=
  if IsAbs path then (Clean path, none)
  else
    match cwd with
    | none => ([], some (Err.absFailed path))
    | some wd => (Join [wd, path], none)

/-- The loop of `findConfig`, with `fuel` bounding the number of iterations;
`none` when the bound is reached before the loop returns. -/
def findConfigLoop (fs : FileSystem) : Nat → GoString → Option (Bool × GoString)
  | 0, _ => none
  | fuel + 1, wd =>
    if FileExists fs (Join [wd, "bramble.toml".toList]) then some (true, wd)
    else if wd = Join [wd, "..".toList] then some (false, [])
    else findConfigLoop fs fuel (Join [wd, "..".toList])

/-- Go `findConfig` of project.go. -/
def findConfig (fuel : Nat) (fs : FileSystem) (cwd : Option GoString) (wd : GoString) :
    Option (Bool × GoString) :=
  let o := (Abs cwd wd).1
  let wd := if o ≠ [] then o else wd
  findConfigLoop fs fuel wd

/-- Go `Config` of project.go, with `Module.Name` as `moduleName`. -/
structure Config where
  moduleName : GoString
  deriving DecidableEq

/-- Go `NewProject`; `configs` and `locks` hold the `bramble.toml` and
`bramble.lock` files by path as the decoder sees them. `none` when `findConfig`
does not return within `fuel` iterations. -/
def NewProject (fuel : Nat) (fs : FileSystem) (cwd : Option GoString)
    (configs : GoString → TomlFile Config) (locks : GoString → TomlFile LockFile)
    (wd : GoString) : Option (Option Project × Option Err) :=
  match Abs cwd wd with
  | (_, some _) => some (none, some (Err.absFailed wd))
  | (absWD, none) =>
    match findConfig fuel fs cwd absWD with
    | none => none
    | some (false, _) => some (none, some Err.notInProject)
    | some (true, location) =>
      let bDotToml := Join [location, "bramble.toml".toList]
      match configs bDotToml with
      | TomlFile.unopenable => some (none, some (Err.openFailed bDotToml))
      | TomlFile.absent => some (none, some (Err.openFailed bDotToml))
      | TomlFile.garbled => some (none, some (Err.decodeFailed bDotToml))
      | TomlFile.doc config =>
        let p : Project :=
          { moduleName := config.moduleName, Location := location, wd := absWD,
            lockFile := { URLHashes := none } }
        let lockFile := Join [location, "bramble.lock".toList]
        if !FileExists fs lockFile then some (some p, none)
        else
          match locks lockFile with
          | TomlFile.unopenable => some (none, some (Err.openFailed lockFile))
          | TomlFile.absent => some (none, some (Err.openFailed lockFile))
          | TomlFile.garbled => some (some p, some (Err.decodeFailed lockFile))
          | TomlFile.doc lf => some (some { p with lockFile := lf }, none)

/-! ## `pkg/bramble/bramble.go`, `pkg/bramble/os.go`: the derivation discipline -/

/-- Go `Bramble.AfterDerivation` -/
def Bramble.AfterDerivation (b : Bramble) : Bramble :=
  { b with afterDerivation := true }

/-- Go `Bramble.CalledDerivation` -/
def Bramble.CalledDerivation (b : Bramble) : Option Err :=
  if b.afterDerivation then some Err.buildContextDirty else none

/-- A Starlark value, as far as the builtins of `os` tell values apart. -/
inductive Value
  | None
  | str (s : GoString)
  | int (n : Int)
  deriving DecidableEq

/-- What the builtins act on besides the `Bramble` value: the file system and
standard input, the latter as the chunks that successive reads deliver. -/
structure World where
  fs : FileSystem
  stdin : List GoString

/-- Functions of the repository that are not among the sources and are taken
as given: `starutil.ValueToString` (the string or an error message) and the
package function `cp` (the file system afterwards and an error message). -/
structure Helpers where
  ValueToString : Value → GoString × Option GoString
  cp : FileSystem → GoString → List GoString → FileSystem × Option GoString

/-- Go `bufio.NewReader(os.Stdin).ReadString('\n')`: the text up to and with
the first newline, or all there is together with `io.EOF`; what the reader
took from the chunk with the newline is gone with the reader. -/
def readString : List GoString → (GoString × Option Err) × List GoString
  | [] => (([], some Err.eof), [])
  | c :: rest =>
    if '\n' ∈ c then ((c.takeWhile (fun x => decide (x ≠ '\n')) ++ ['\n'], none), rest)
    else ((c ++ (readString rest).1.1, (readString rest).1.2), (readString rest).2)

/-- Go `os.Mkdir(path, 0755)`: a new directory at `path`, or an error when
something is there already. -/
def Mkdir (fs : FileSystem) (path : GoString) : FileSystem × Option Err :=
  if fs path ≠ none then (fs, some (Err.mkdirFailed path))
  else (Function.update fs path (some Node.dir), none)

/-- Go `starlark.UnpackArgs(fnname, args, kwargs, "path", &path)` with `path` a
`starlark.String`: one string, given by position or as the keyword `path`. -/
def unpackPath (args : List Value) (kwargs : List (GoString × Value)) : Option GoString :=
  match args, kwargs with
  | [Value.str s], [] => some s
  | [], [(k, Value.str s)] => if k = "path".toList then some s else none
  | _, _ => none

/-- Go `OS.input`. Returns `(val, err)`, `val` being `none` for a nil value,
and the `Bramble` value and the world after the call. -/
def OS.input (b : Bramble) (w : World) (_args : List Value)
    (_kwargs : List (GoString × Value)) : (Option Value × Option Err) × Bramble × World :=
  let b := b.AfterDerivation
  let r := readString w.stdin
  ((some (Value.str r.1.1), r.1.2), b, { w with stdin := r.2 })

/-- Go `OS.mkdir`. -/
def OS.mkdir (b : Bramble) (w : World) (args : List Value)
    (kwargs : List (GoString × Value)) : (Option Value × Option Err) × Bramble × World :=
  let b := b.AfterDerivation
  match unpackPath args kwargs with
  | none => ((none, some (Err.unpackArgs "mkdir".toList)), b, w)
  | some path =>
    ((some Value.None, (Mkdir w.fs path).2), b, { w with fs := (Mkdir w.fs path).1 })

/-- The loop of `OS.cp` over its arguments: the paths, or the error of the
first argument that is no string or no absolute path. -/
def cpPaths (h : Helpers) : List Value → List GoString × Option Err
  | [] => ([], none)
  | arg :: rest =>
    match h.ValueToString arg with
    | (_, some msg) => ([], some (Err.valueToString msg))
    | (str, none) =>
      if !IsAbs str then ([], some Err.cpRelative)
      else
        match cpPaths h rest with
        | (_, some e) => ([], some e)
        | (paths, none) => (str :: paths, none)

/-- Go `OS.cp`. -/
def OS.cp (h : Helpers) (b : Bramble) (w : World) (args : List Value)
    (kwargs : List (GoString × Value)) : (Option Value × Option Err) × Bramble × World :=
  let b := b.AfterDerivation
  if kwargs ≠ [] then ((none, some (Err.unpackArgs "cp".toList)), b, w)
  else
    match cpPaths h args with
    | (_, some e) => ((none, some e), b, w)
    | (paths, none) =>
      ((some Value.None, ((h.cp w.fs [] paths).2).map Err.cpFailed), b,
        { w with fs := (h.cp w.fs [] paths).1 })

/-- A call on an evaluation context: the two methods of `Bramble`, the three
builtins of `os` that call `AfterDerivation`. -/
inductive Op
  | AfterDerivation
  | CalledDerivation
  | input (args : List Value) (kwargs : List (GoString × Value))
  | mkdir (args : List Value) (kwargs : List (GoString × Value))
  | cp (args : List Value) (kwargs : List (GoString × Value))
  deriving DecidableEq

/-- One call: the error it returns and the context after it. -/
def step (h : Helpers) (op : Op) (s : Bramble × World) : Option Err × (Bramble × World) :=
  match op with
  | Op.AfterDerivation => (none, (s.1.AfterDerivation, s.2))
  | Op.CalledDerivation => (s.1.CalledDerivation, s)
  | Op.input args kwargs => ((OS.input s.1 s.2 args kwargs).1.2, (OS.input s.1 s.2 args kwargs).2)
  | Op.mkdir args kwargs => ((OS.mkdir s.1 s.2 args kwargs).1.2, (OS.mkdir s.1 s.2 args kwargs).2)
  | Op.cp args kwargs => ((OS.cp h s.1 s.2 args kwargs).1.2, (OS.cp h s.1 s.2 args kwargs).2)

/-- A sequence of calls: the errors returned, in order, and the context after
the last call. -/
def runOps (h : Helpers) : List Op → Bramble × World → List (Option Err) × (Bramble × World)
  | [], s => ([], s)
  | op :: ops, s =>
    ((step h op s).1 :: (runOps h ops (step h op s).2).1, (runOps h ops (step h op s).2).2)

/-! ## `pkg/bramble/bramble.go`: test files -/

/-- The loop of Go `filepath.Ext` from the end of the path towards its start:
`acc` holds what has been passed, the argument what is still ahead, last byte
first. -/
def extLoop : List Char → GoString → GoString
  | [], _ => []
  | c :: ahead, acc =>
    if c = '/' then []
    else if c = '.' then c :: acc
    else extLoop ahead (c :: acc)

/-- Go `filepath.Ext`: the suffix from the last dot of the last element on. -/
def Ext (path : GoString) : GoString :=
  extLoop path.reverse []

/-- Go `isTestFile` -/
def isTestFile (name : GoString) : Bool :=
  if !HasSuffix name extension then false
  else
    let nameWithoutExtension := name.take (name.length - extension.length)
    HasPrefix nameWithoutExtension "test_".toList ||
      HasSuffix nameWithoutExtension "_test".toList

/-- The loop of `findTestFiles` over the directory entries, `testFiles` being
the slice built so far. -/
def findTestFilesLoop (path : GoString) : List GoString → List GoString → List GoString
  | [], testFiles => testFiles
  | name :: files, testFiles =>
    if Ext name ≠ extension then findTestFilesLoop path files testFiles
    else if !isTestFile name then findTestFilesLoop path files testFiles
    else findTestFilesLoop path files (testFiles ++ [Join [path, name]])

/-- Go `findTestFiles`; `readDir` gives the names that `ioutil.ReadDir` lists
for a path, in its order, `none` when it fails. -/
def findTestFiles (fs : FileSystem) (readDir : GoString → Option (List GoString))
    (path : GoString) : List GoString × Option Err :=
  if fileExists fs path then ([path], none)
  else if fileExists fs (path ++ extension) then ([path ++ extension], none)
  else
    match readDir path with
    | none => ([], some (Err.readDirFailed path))
    | some files => (findTestFilesLoop path files [], none)

/-! ## `pkg/bramble/bramble.go`: the test run -/

/-- Go `runErrorReporter` -/
structure runErrorReporter where
  deriving DecidableEq

/-- Go `runErrorReporter.FailNow` -/
def runErrorReporter.FailNow (_e : runErrorReporter) : Bool := true

/-- Go `testErrorReporter`; an error is held by its message. -/
structure testErrorReporter where
  errors : List GoString
  deriving DecidableEq

/-- Go `testErrorReporter.Error` -/
def testErrorReporter.Error (e : testErrorReporter) (err : GoString) : testErrorReporter :=
  { errors := e.errors ++ [err] }

/-- Go `testErrorReporter.FailNow` -/
def testErrorReporter.FailNow (_e : testErrorReporter) : Bool := false

/-- A global of a Starlark module as `Bramble.test` meets it: a function,
given by what a call of it does under a reporter that does not fail at once
(the assertion failures it reports, in order, and the error the call
returns), or a value that is no function. -/
inductive Global
  | function (reports : List GoString) (err : Option Err)
  | other
  deriving DecidableEq

/-- The record of one executed test function: its file, its name and the
errors its `testErrorReporter` held after the call. -/
structure Ran where
  file : GoString
  name : GoString
  errors : List GoString
  deriving DecidableEq

/-- The loop of `Bramble.test` over the globals of one test file, in the order
in which `range` yields them. Returns the error with which `test` returns from
inside the loop, `none` when the loop ends, and the functions executed. -/
def testGlobals (failFast : Bool) (filename : GoString) :
    List (GoString × Global) → Option Err × List Ran
  | [] => (none, [])
  | (name, fn) :: rest =>
    if !HasPrefix name "test_".toList then testGlobals failFast filename rest
    else
      match fn with
      | Global.other => testGlobals failFast filename rest
      | Global.function reports err =>
        let errors := reports.foldl testErrorReporter.Error { errors := [] }
        let ran : Ran := { file := filename, name := name, errors := errors.errors }
        if errors.errors.length > 0 ∧ failFast = true then (some Err.quiet, [ran])
        else
          match err with
          | some e => (some e, [ran])
          | none =>
            ((testGlobals failFast filename rest).1,
              ran :: (testGlobals failFast filename rest).2)

/-- The loop of `Bramble.test` over the test files. -/
def testFiles (failFast : Bool) (ev : Evaluator (List (GoString × Global))) :
    List GoString → Option Err × List Ran
  | [] => (none, [])
  | filename :: rest =>
    match ev.ExecFile filename with
    | (_, some e) => (some e, [])
    | (globals, none) =>
      match testGlobals failFast filename (globals.getD []) with
      | (some e, ran) => (some e, ran)
      | (none, ran) => ((testFiles failFast ev rest).1, ran ++ (testFiles failFast ev rest).2)

/-- Go `Bramble.init`, of which only the first check is decided by the
sources: `rest` is what the remainder of `init` yields. -/
def Bramble.init (b : Bramble) (rest : Bramble × Option Err) : Bramble × Option Err :=
  if b.configLocation ≠ [] then (b, some Err.initTwice) else rest

/-- Go `Bramble.test`. Returns the error and the test functions executed. -/
def Bramble.test (b : Bramble) (initRest : Bramble × Option Err) (fs : FileSystem)
    (readDir : GoString → Option (List GoString))
    (ev : Evaluator (List (GoString × Global))) (args : List GoString) :
    Option Err × List Ran :=
  let failFast := true
  match b.init initRest with
  | (_, some e) => (some e, [])
  | (_, none) =>
    let location :=
      match args with
      | [] => ".".toList
      | a :: _ => a
    match findTestFiles fs readDir location with
    | (_, some _) => (some Err.findingTestFiles, [])
    | (files, none) => testFiles failFast ev files

/-! ## More concrete inputs -/

/-- A world with the directories of the store at `/b` and the line `yes` on
standard input. -/
def exampleWorld : World :=
  { fs := exampleStoreFiles, stdin := ["yes\n".toList] }

/-- Stand-ins for the helpers: a string value is its string, anything else is
refused; `cp` leaves the file system as it is and returns no error. -/
def exampleHelpers : Helpers :=
  { ValueToString := fun v =>
      match v with
      | Value.str s => (s, none)
      | _ => ([], some "not a string".toList),
    cp := fun fs _ _ => (fs, none) }

/-- The names `ioutil.ReadDir` lists for `/proj/tests`; nothing else can be
listed. -/
def exampleReadDir : GoString → Option (List GoString) := fun path =>
  if path = "/proj/tests".toList then
    some ["a_test.bramble".toList, "helper.bramble".toList, "test_b.bramble".toList,
      "test_c.txt".toList]
  else none

/-- The cleaned absolute path with the given elements: `/e1/e2/.../en`, the
root for none. -/
def dirOf (es : List GoString) : GoString :=
  '/' :: joinSep es

/-- Whether the directory with the given elements contains a regular file
`bramble.toml`. -/
def configIn (fs : FileSystem) (es : List GoString) : Bool :=
  FileExists fs (dirOf (es ++ ["bramble.toml".toList]))

/-- The files of a project at `/proj` that is entered at `/proj/sub/deep`. -/
def exampleTree : FileSystem := fun path =>
  if path = "/proj/bramble.toml".toList then some (Node.file [])
  else if path = "/proj".toList then some Node.dir
  else if path = "/proj/sub".toList then some Node.dir
  else if path = "/proj/sub/deep".toList then some Node.dir
  else none

/-- The test functions among some globals of a file, each with the failures
it reports. -/
def ranOf (filename : GoString) (globals : List (GoString × Global)) : List Ran :=
  globals.filterMap (fun g =>
    if HasPrefix g.1 "test_".toList then
      match g.2 with
      | Global.function reports _ => some { file := filename, name := g.1, errors := reports }
      | Global.other => none
    else none)

/-- Globals none of whose test functions reports a failure or returns an
error. -/
def quietGlobals (globals : List (GoString × Global)) : Prop :=
  ∀ name reports err, (name, Global.function reports err) ∈ globals →
    HasPrefix name "test_".toList = true → reports = [] ∧ err = none

/-- A `Bramble` value that has not been initialised. -/
def freshBramble : Bramble :=
  { moduleName := [], configLocation := [], afterDerivation := false }

/-- An evaluator of test files: `a_test.bramble` defines `test_one`, which
reports the failure `boom`, and `test_two`; `test_b.bramble` defines
`test_three`; neither of the latter two reports anything. -/
def exampleTests : Evaluator (List (GoString × Global)) :=
  { ExecFile := fun path =>
      if path = "/proj/tests/a_test.bramble".toList then
        (some [("test_one".toList, Global.function ["boom".toList] none),
               ("test_two".toList, Global.function [] none)], none)
      else if path = "/proj/tests/test_b.bramble".toList then
        (some [("test_three".toList, Global.function [] none)], none)
      else (none, some (Err.starlark "no such file".toList)) }

/-! ## Lemmas on path elements -/

theorem splitSep_ne_nil (s : GoString) : splitSep s ≠ [] := by
  induction s with
  | nil => simp [splitSep]
  | cons c cs ih =>
    unfold splitSep
    split_ifs
    · simp
    · cases h : splitSep cs <;> simp

theorem splitSep_append_sep (a b : GoString) :
    splitSep (a ++ '/' :: b) = splitSep a ++ splitSep b := by
  induction a with
  | nil => simp [splitSep]
  | cons c cs ih =>
    by_cases hc : c = '/'
    · simp [splitSep, hc, ih]
    · have hne := splitSep_ne_nil cs
      cases h : splitSep cs with
      | nil => exact absurd h hne
      | cons e es => simp [splitSep, hc, ih, h]

theorem splitSep_of_noSep (e : GoString) (h : '/' ∉ e) : splitSep e = [e] := by
  induction e with
  | nil => simp [splitSep]
  | cons c cs ih =>
    have hc : c ≠ '/' := fun hh => h (by simp [hh])
    have hcs : '/' ∉ cs := fun hh => h (by simp [hh])
    simp [splitSep, hc, ih hcs]

theorem noSep_of_mem_splitSep (s : GoString) : ∀ e ∈ splitSep s, '/' ∉ e := by
  induction s with
  | nil => simp [splitSep]
  | cons c cs ih =>
    by_cases hc : c = '/'
    · intro e he
      simp [splitSep, hc] at he
      rcases he with rfl | he
      · simp
      · exact ih e he
    · have hne := splitSep_ne_nil cs
      cases h : splitSep cs with
      | nil => exact absurd h hne
      | cons e0 es =>
        intro e he
        simp [splitSep, hc, h] at he
        rw [h] at ih
        rcases he with rfl | he
        · have := ih e0 (by simp)
          intro hh
          simp at hh
          rcases hh with hh | hh
          · exact hc hh.symm
          · exact this hh
        · exact ih e (by simp [he])

theorem joinSep_splitSep (s : GoString) : joinSep (splitSep s) = s := by
  induction s with
  | nil => simp [splitSep, joinSep]
  | cons c cs ih =>
    have hne := splitSep_ne_nil cs
    cases h : splitSep cs with
    | nil => exact absurd h hne
    | cons e es =>
      rw [h] at ih
      by_cases hc : c = '/'
      · simp [splitSep, hc, h, joinSep, ih]
      · simp only [splitSep, hc, h, if_false]
        cases es with
        | nil => simp [joinSep] at ih ⊢; exact ih
        | cons f fs => simp [joinSep] at ih ⊢; exact ih

theorem joinSep_cons (e : GoString) (es : List GoString) (h : es ≠ []) :
    joinSep (e :: es) = e ++ '/' :: joinSep es := by
  cases es with
  | nil => exact absurd rfl h
  | cons f fs => rfl

theorem joinSep_append (a b : List GoString) (ha : a ≠ []) (hb : b ≠ []) :
    joinSep (a ++ b) = joinSep a ++ '/' :: joinSep b := by
  induction a with
  | nil => exact absurd rfl ha
  | cons e es ih =>
    cases es with
    | nil => simp [joinSep_cons _ _ hb, joinSep]
    | cons f fs =>
      have h1 : (f :: fs) ++ b ≠ [] := by simp
      have := ih (by simp)
      simp only [List.cons_append] at this h1 ⊢
      rw [joinSep_cons e _ (by simp), joinSep_cons e _ (by simp), this]
      simp

theorem splitSep_joinSep (es : List GoString) (hne : es ≠ [])
    (h : ∀ e ∈ es, '/' ∉ e) : splitSep (joinSep es) = es := by
  induction es with
  | nil => exact absurd rfl hne
  | cons e es ih =>
    cases es with
    | nil => simpa [joinSep] using splitSep_of_noSep e (h e (by simp))
    | cons f fs =>
      rw [joinSep_cons e _ (by simp), splitSep_append_sep,
        splitSep_of_noSep e (h e (by simp)), ih (by simp) (fun x hx => h x (by simp [hx]))]
      simp


/-! ## Lemmas on `Clean` and `Join` -/

theorem IsAbs_iff (p : GoString) : IsAbs p = true ↔ ∃ q, p = '/' :: q := by
  cases p with
  | nil => simp [IsAbs, HasPrefix]
  | cons c cs => simp [IsAbs, HasPrefix]

theorem Clean_rooted (q : GoString) :
    Clean ('/' :: q) =
      '/' :: joinSep ((splitSep ('/' :: q)).foldl (cleanStep true) []).reverse := by
  simp [Clean]

theorem cleanStep_plain (rooted : Bool) (out : List GoString) (e : GoString)
    (h1 : e ≠ ['.']) (h2 : e ≠ ['.', '.']) :
    cleanStep rooted out e = if e = [] then out else e :: out := by
  simp [cleanStep, h1, h2]

theorem foldl_cleanStep_plain (rooted : Bool) (xs : List GoString) :
    ∀ (out : List GoString), (∀ e ∈ xs, e ≠ ['.'] ∧ e ≠ ['.', '.']) →
      xs.foldl (cleanStep rooted) out = (xs.filter (fun e => decide (e ≠ []))).reverse ++ out := by
  induction xs with
  | nil => intro out _; simp
  | cons x xs ih =>
    intro out h
    have hx := h x (by simp)
    rw [List.foldl_cons, cleanStep_plain rooted out x hx.1 hx.2,
      ih _ (fun e he => h e (by simp [he]))]
    by_cases hxe : x = []
    · simp [hxe]
    · simp [hxe, List.filter_cons]

/-- Cleaning a cleaned absolute path followed by a separator and a relative
part without `.` and `..` elements appends the non-empty elements of that part. -/
theorem Clean_append_of_clean (p X : GoString) (habs : IsAbs p = true)
    (hp : Clean p = p) (hX : ∀ e ∈ splitSep X, e ≠ ['.'] ∧ e ≠ ['.', '.']) :
    Clean (p ++ '/' :: X) =
      if (splitSep X).filter (fun e => decide (e ≠ [])) = [] then p
      else if p = ['/'] then '/' :: joinSep ((splitSep X).filter (fun e => decide (e ≠ [])))
      else p ++ '/' :: joinSep ((splitSep X).filter (fun e => decide (e ≠ []))) := by
  obtain ⟨q, rfl⟩ := (IsAbs_iff p).1 habs
  rw [Clean_rooted] at hp
  have hstep : Clean (('/' :: q) ++ '/' :: X) =
      '/' :: joinSep (((splitSep ('/' :: q)).foldl (cleanStep true) []).reverse ++
        (splitSep X).filter (fun e => decide (e ≠ []))) := by
    rw [List.cons_append, Clean_rooted, ← List.cons_append, splitSep_append_sep,
      List.foldl_append, foldl_cleanStep_plain true _ _ hX]
    simp
  rw [hstep]
  set out := (splitSep ('/' :: q)).foldl (cleanStep true) [] with hout
  set F := (splitSep X).filter (fun e => decide (e ≠ [])) with hF
  by_cases hFe : F = []
  · simp [hFe, hp]
  · rw [if_neg hFe]
    by_cases hroot : q = []
    · subst hroot
      have : out = [] := by simp [hout, splitSep, cleanStep]
      simp [this]
    · have hq : ('/' :: q) ≠ ['/'] := by simpa using hroot
      rw [if_neg hq]
      have hone : out.reverse ≠ [] := by
        intro h0
        rw [h0] at hp
        simp [joinSep] at hp
        exact hroot hp
      rw [joinSep_append _ _ hone hFe, ← List.cons_append, hp]

theorem Join_pair (p X : GoString) (hp : p ≠ []) : Join [p, X] = Clean (p ++ '/' :: X) := by
  simp [Join, List.dropWhile, hp, joinSep]


/-- The examples of the Go documentation for `filepath.Clean`, `filepath.Join`
and `filepath.Rel`, and a few more, hold of the embedding. -/
theorem filepath_examples :
    Clean "a//b/../c/.".toList = "a/c".toList ∧
    Clean "/../a/b/".toList = "/a/b".toList ∧
    Clean "../../x/..".toList = "../..".toList ∧
    Clean "".toList = ".".toList ∧
    Clean "/".toList = "/".toList ∧
    Join ["a".toList, "b/c".toList] = "a/b/c".toList ∧
    Join ["a/b".toList, "../../../xyz".toList] = "../xyz".toList ∧
    Join ["".toList, "".toList] = "".toList ∧
    Join ["a".toList, "".toList] = "a".toList ∧
    Join ["".toList, "a".toList] = "a".toList ∧
    Rel "/a".toList "/a/b/c".toList = ("b/c".toList, none) ∧
    Rel "/a".toList "/b/c".toList = ("../b/c".toList, none) ∧
    (Rel "/a".toList "./b/c".toList).2 ≠ none ∧
    Rel "/a/b".toList "/a/b".toList = (".".toList, none) ∧
    Rel "/a/b/c".toList "/a".toList = ("../..".toList, none) ∧
    Rel "a/b".toList "a/b/c/d".toList = ("c/d".toList, none) ∧
    Rel ".".toList "a/b".toList = ("a/b".toList, none) := by
  decide

/-! ## Lemmas on the padding computation -/

theorem wrapInt_eq (x : Int) (h1 : -9223372036854775808 ≤ x) (h2 : x < 9223372036854775808) :
    wrapInt x = x := by
  unfold wrapInt
  omega

theorem paddingLenOf_eq (p : GoString) (T : Int)
    (h1 : -9223372036854775808 ≤ T - (p.length : Int) - 2) (h2 : T < 9223372036854775808) :
    paddingLenOf p T = T - (p.length : Int) - 2 := by
  unfold paddingLenOf
  rw [wrapInt_eq (T - (p.length : Int)) (by omega) (by omega),
    wrapInt_eq (T - (p.length : Int) - 1) (by omega) (by omega),
    wrapInt_eq (T - (p.length : Int) - 1 - 1) (by omega) (by omega)]
  omega

theorem PathPaddingCharacters_length : PathPaddingCharacters.length = 21 := by decide

theorem PathPaddingCharacters_cons :
    PathPaddingCharacters = 'b' :: "ramble_store_padding".toList := by decide

theorem PathPaddingCharacters_noSep : '/' ∉ PathPaddingCharacters := by decide

theorem paddingLoop_eq (n : Nat) : ∀ acc : GoString,
    paddingLoop n acc = acc ++ (List.replicate n ('/' :: PathPaddingCharacters)).flatten := by
  induction n with
  | zero => intro acc; simp [paddingLoop]
  | succ n ih => intro acc; simp [paddingLoop, ih, List.replicate_succ]

theorem padding_as_elements (n : Nat) (t : GoString) :
    (List.replicate n ('/' :: PathPaddingCharacters)).flatten ++ '/' :: t =
      '/' :: joinSep (List.replicate n PathPaddingCharacters ++ [t]) := by
  induction n with
  | zero => simp [joinSep]
  | succ n ih =>
    have hne : List.replicate n PathPaddingCharacters ++ [t] ≠ [] := by simp
    simp only [List.replicate_succ, List.flatten_cons, List.append_assoc, ih, List.cons_append,
      joinSep_cons _ _ hne]

theorem StoreGo.calculatePaddedDirectoryName_ok (p : GoString) (T : Int)
    (h : 0 < paddingLenOf p T) :
    StoreGo.calculatePaddedDirectoryName p T =
      ((List.replicate (paddingLenOf p T / 22).toNat ('/' :: PathPaddingCharacters)).flatten ++
        '/' :: PathPaddingCharacters.take (paddingLenOf p T % 22).toNat, none) := by
  have h22 : wrapInt (((PathPaddingCharacters.length : Nat) : Int) + 1) = 22 := by decide
  unfold StoreGo.calculatePaddedDirectoryName
  simp only [h22, not_le.mpr h, if_false, paddingLoop_eq, List.nil_append,
    Int.tdiv_eq_ediv (le_of_lt h) (by norm_num : (0 : Int) ≤ 22),
    Int.tmod_eq_emod (le_of_lt h) (by norm_num : (0 : Int) ≤ 22)]

theorem PathGo.calculatePaddedDirectoryName_eq (p : GoString) (T : Int) :
    PathGo.calculatePaddedDirectoryName p T = StoreGo.calculatePaddedDirectoryName p T := rfl

theorem take_padding_plain (k : Nat) :
    PathPaddingCharacters.take k ≠ ['.'] ∧ PathPaddingCharacters.take k ≠ ['.', '.'] := by
  cases k with
  | zero => simp
  | succ k => rw [PathPaddingCharacters_cons]; simp

theorem take_padding_noSep (k : Nat) : '/' ∉ PathPaddingCharacters.take k :=
  fun h => PathPaddingCharacters_noSep (List.mem_of_mem_take h)

theorem length_flatten_replicate (n : Nat) (l : GoString) :
    (List.replicate n l).flatten.length = n * l.length := by
  induction n with
  | zero => simp
  | succ n ih => simp [List.replicate_succ, ih]; ring

theorem StoreGo.allocateStorePath_ok (p : GoString) (T : Int)
    (habs : IsAbs p = true) (hclean : Clean p = p) (hroot : p ≠ ['/'])
    (hpos : 0 < paddingLenOf p T) (hextra : paddingLenOf p T % 22 ≠ 0) :
    StoreGo.allocateStorePath p T =
      (p ++ (StoreGo.calculatePaddedDirectoryName p T).1, none) := by
  have hcalc := StoreGo.calculatePaddedDirectoryName_ok p T hpos
  have hpne : p ≠ [] := by
    obtain ⟨q, rfl⟩ := (IsAbs_iff p).1 habs
    simp
  have hk : 0 < (paddingLenOf p T % 22).toNat := by omega
  generalize (paddingLenOf p T / 22).toNat = n at hcalc
  generalize (paddingLenOf p T % 22).toNat = k at hcalc hk
  rw [padding_as_elements] at hcalc
  have hnosep : ∀ e ∈ List.replicate n PathPaddingCharacters ++ [PathPaddingCharacters.take k],
      '/' ∉ e := by
    intro e he
    rcases List.mem_append.1 he with h | h
    · rw [(List.mem_replicate.1 h).2]; exact PathPaddingCharacters_noSep
    · rw [List.mem_singleton.1 h]; exact take_padding_noSep k
  have hsplit : splitSep ('/' :: joinSep
      (List.replicate n PathPaddingCharacters ++ [PathPaddingCharacters.take k])) =
      [] :: (List.replicate n PathPaddingCharacters ++ [PathPaddingCharacters.take k]) := by
    have := splitSep_append_sep []
      (joinSep (List.replicate n PathPaddingCharacters ++ [PathPaddingCharacters.take k]))
    rw [List.nil_append] at this
    rw [this, splitSep_joinSep _ (by simp) hnosep]
    simp [splitSep]
  have hplain : ∀ e ∈ splitSep ('/' :: joinSep
      (List.replicate n PathPaddingCharacters ++ [PathPaddingCharacters.take k])),
      e ≠ ['.'] ∧ e ≠ ['.', '.'] := by
    intro e he
    rw [hsplit] at he
    rcases List.mem_cons.1 he with h | h
    · subst h; simp
    · rcases List.mem_append.1 h with h | h
      · rw [(List.mem_replicate.1 h).2]; decide
      · rw [List.mem_singleton.1 h]; exact take_padding_plain k
  have hfilter : (splitSep ('/' :: joinSep
      (List.replicate n PathPaddingCharacters ++ [PathPaddingCharacters.take k]))).filter
      (fun e => decide (e ≠ [])) =
      List.replicate n PathPaddingCharacters ++ [PathPaddingCharacters.take k] := by
    rw [hsplit, List.filter_cons_of_neg (by simp)]
    apply List.filter_eq_self.2
    intro e he
    rcases List.mem_append.1 he with h | h
    · rw [(List.mem_replicate.1 h).2]; decide
    · rw [List.mem_singleton.1 h]
      have : (PathPaddingCharacters.take k).length ≠ 0 := by
        rw [List.length_take, PathPaddingCharacters_length]; omega
      simpa using this
  unfold StoreGo.allocateStorePath
  rw [hcalc]
  simp only
  rw [Join_pair p _ hpne, Clean_append_of_clean p _ habs hclean hplain, hfilter]
  simp [hroot]

theorem StoreGo.calculatePaddedDirectoryName_length (p : GoString) (T : Int)
    (hpos : 0 < paddingLenOf p T) :
    ((StoreGo.calculatePaddedDirectoryName p T).1.length : Int) = paddingLenOf p T + 1 := by
  rw [StoreGo.calculatePaddedDirectoryName_ok p T hpos]
  simp only [List.length_append, List.length_cons, length_flatten_replicate, List.length_take,
    PathPaddingCharacters_length]
  omega

/-! ## Store root padding (C1, C2, C3) -/

/-- C1 (as stated, refuted): the absolute parent path `/home/u/bramble` is
shorter than the default target length 50, the padded name is computed without
error, and yet the store root allocated by `ensureBramblePath` has 49
characters, so the statement for every absolute parent path fails. Besides,
the 48-byte absolute parent `/home/u/` followed by forty `a` is shorter than 50
and is refused, and for the 26-byte parent `/home/u/` followed by eighteen `a`,
where the remainder is 22, the store root has 48 characters. -/
theorem C1_root_shorter_than_target :
    (¬ ∀ p : GoString, IsAbs p = true → (p.length : Int) < PathPaddingLength →
      (StoreGo.allocateStorePath p PathPaddingLength).2 = none ∧
      ((StoreGo.allocateStorePath p PathPaddingLength).1.length : Int) = PathPaddingLength) ∧
    (StoreGo.allocateStorePath "/home/u/bramble".toList PathPaddingLength).1.length = 49 ∧
    (StoreGo.calculatePaddedDirectoryName ("/home/u/".toList ++ List.replicate 40 'a')
      PathPaddingLength).2 ≠ none ∧
    (StoreGo.allocateStorePath ("/home/u/".toList ++ List.replicate 18 'a')
      PathPaddingLength).1.length = 48 := by
  refine ⟨?_, by decide, by decide, by decide⟩
  intro h
  have h0 := h "/home/u/bramble".toList (by decide) (by decide)
  revert h0
  decide

/-- C1 (amended): for every cleaned absolute parent path `p` other than the
root with `len(p) + 2 < T`, `calculatePaddedDirectoryName(p, T)` succeeds; and
when `(T - len(p) - 2) mod 22` is not zero, the store root
`filepath.Join(p, name)` is `p` followed by the returned name and is exactly
`T - 1` characters long, so that it reaches `T` with the separator after it. -/
theorem C1_store_root_length (p : GoString) (T : Int)
    (habs : IsAbs p = true) (hclean : Clean p = p) (hroot : p ≠ ['/'])
    (hlen : (p.length : Int) + 2 < T) (hT : T < 9223372036854775808) :
    (StoreGo.calculatePaddedDirectoryName p T).2 = none ∧
    ((T - (p.length : Int) - 2) % 22 ≠ 0 →
      StoreGo.allocateStorePath p T =
        (p ++ (StoreGo.calculatePaddedDirectoryName p T).1, none) ∧
      ((StoreGo.allocateStorePath p T).1.length : Int) = T - 1) := by
  have hr : paddingLenOf p T = T - (p.length : Int) - 2 := paddingLenOf_eq p T (by omega) hT
  have hpos : 0 < paddingLenOf p T := by omega
  refine ⟨by rw [StoreGo.calculatePaddedDirectoryName_ok p T hpos], ?_⟩
  intro hextra
  have halloc := StoreGo.allocateStorePath_ok p T habs hclean hroot hpos (by rw [hr]; exact hextra)
  refine ⟨halloc, ?_⟩
  have hl := StoreGo.calculatePaddedDirectoryName_length p T hpos
  rw [halloc]
  simp only [List.length_append, Nat.cast_add]
  omega

/-- C1 (amended), instance: parent `/home/u/bramble`, target 50; the store
root has 49 characters. -/
theorem C1_store_root_length_witness :
    (StoreGo.calculatePaddedDirectoryName "/home/u/bramble".toList 50).2 = none ∧
    StoreGo.allocateStorePath "/home/u/bramble".toList 50 =
      ("/home/u/bramble".toList ++
        (StoreGo.calculatePaddedDirectoryName "/home/u/bramble".toList 50).1, none) ∧
    ((StoreGo.allocateStorePath "/home/u/bramble".toList 50).1.length : Int) = 50 - 1 :=
  ⟨(C1_store_root_length "/home/u/bramble".toList 50 (by decide) (by decide) (by decide)
      (by decide) (by decide)).1,
   (C1_store_root_length "/home/u/bramble".toList 50 (by decide) (by decide) (by decide)
      (by decide) (by decide)).2 (by decide)⟩

/-- C2: `calculatePaddedDirectoryName` (store.go and path.go) returns an error,
together with the empty name, exactly when `paddingLen` is `<= 0`; whenever
`paddingLen > 0` it returns a nil error and a non-empty name. `paddingLen` is
`T - len(p) - 2` whenever that difference is a Go `int`. -/
theorem C2_error_iff_no_room (p : GoString) (T : Int) :
    ((((StoreGo.calculatePaddedDirectoryName p T).2 ≠ none ∧
        (StoreGo.calculatePaddedDirectoryName p T).1 = []) ↔ paddingLenOf p T ≤ 0) ∧
      (0 < paddingLenOf p T →
        (StoreGo.calculatePaddedDirectoryName p T).2 = none ∧
        (StoreGo.calculatePaddedDirectoryName p T).1 ≠ [])) ∧
    ((((PathGo.calculatePaddedDirectoryName p T).2 ≠ none ∧
        (PathGo.calculatePaddedDirectoryName p T).1 = []) ↔ paddingLenOf p T ≤ 0) ∧
      (0 < paddingLenOf p T →
        (PathGo.calculatePaddedDirectoryName p T).2 = none ∧
        (PathGo.calculatePaddedDirectoryName p T).1 ≠ [])) ∧
    (-9223372036854775808 ≤ T - (p.length : Int) - 2 → T < 9223372036854775808 →
      paddingLenOf p T = T - (p.length : Int) - 2) := by
  have key : (((StoreGo.calculatePaddedDirectoryName p T).2 ≠ none ∧
        (StoreGo.calculatePaddedDirectoryName p T).1 = []) ↔ paddingLenOf p T ≤ 0) ∧
      (0 < paddingLenOf p T →
        (StoreGo.calculatePaddedDirectoryName p T).2 = none ∧
        (StoreGo.calculatePaddedDirectoryName p T).1 ≠ []) := by
    by_cases h : paddingLenOf p T ≤ 0
    · have hc : StoreGo.calculatePaddedDirectoryName p T =
          ([], some (Err.pathTooLong p (paddingLenOf p T))) := by
        simp [StoreGo.calculatePaddedDirectoryName, h]
      refine ⟨by simp [hc, h], fun hpos => absurd hpos (not_lt.mpr h)⟩
    · have hpos : 0 < paddingLenOf p T := not_le.mp h
      have hc := StoreGo.calculatePaddedDirectoryName_ok p T hpos
      refine ⟨by simp [hc, h], fun _ => by simp [hc]⟩
  refine ⟨key, ?_, fun h1 h2 => paddingLenOf_eq p T h1 h2⟩
  rw [PathGo.calculatePaddedDirectoryName_eq]
  exact key

/-- C2, instances: with target 50 the 15-byte parent `/home/u/bramble` gets a
non-empty name and no error, where `paddingLen` is `50 - 15 - 2`. -/
theorem C2_error_iff_no_room_witness :
    ((StoreGo.calculatePaddedDirectoryName "/home/u/bramble".toList 50).2 = none ∧
      (StoreGo.calculatePaddedDirectoryName "/home/u/bramble".toList 50).1 ≠ []) ∧
    ((PathGo.calculatePaddedDirectoryName "/home/u/bramble".toList 50).2 = none ∧
      (PathGo.calculatePaddedDirectoryName "/home/u/bramble".toList 50).1 ≠ []) ∧
    paddingLenOf "/home/u/bramble".toList 50 = 50 - ("/home/u/bramble".toList.length : Int) - 2 :=
  ⟨(C2_error_iff_no_room "/home/u/bramble".toList 50).1.2 (by decide),
   (C2_error_iff_no_room "/home/u/bramble".toList 50).2.1.2 (by decide),
   (C2_error_iff_no_room "/home/u/bramble".toList 50).2.2 (by decide) (by decide)⟩

/-- C3: whenever `remaining = T - len(p) - 2 > 0`, the returned name is
`remaining / 22` copies of `/bramble_store_padding`, then `/`, then the first
`remaining mod 22` characters of `bramble_store_padding`; and the copies of the
function in path.go and store.go return the same values on all arguments. -/
theorem C3_name_shape (p : GoString) (T : Int) (hT : T < 9223372036854775808)
    (hpos : 0 < T - (p.length : Int) - 2) :
    StoreGo.calculatePaddedDirectoryName p T =
      ((List.replicate ((T - (p.length : Int) - 2) / 22).toNat
          "/bramble_store_padding".toList).flatten ++ "/".toList ++
        "bramble_store_padding".toList.take ((T - (p.length : Int) - 2) % 22).toNat, none) ∧
    "bramble_store_padding".toList.length + 1 = 22 ∧
    ∀ (q : GoString) (U : Int),
      PathGo.calculatePaddedDirectoryName q U = StoreGo.calculatePaddedDirectoryName q U := by
  have hr : paddingLenOf p T = T - (p.length : Int) - 2 := paddingLenOf_eq p T (by omega) hT
  refine ⟨?_, by decide, fun q U => rfl⟩
  rw [StoreGo.calculatePaddedDirectoryName_ok p T (by omega), hr]
  have h1 : ('/' :: PathPaddingCharacters) = "/bramble_store_padding".toList := by decide
  have h2 : PathPaddingCharacters = "bramble_store_padding".toList := rfl
  rw [h1, h2]
  simp

/-- C3, instance: parent `/home/u/bramble`, target 50, `remaining = 33`. -/
theorem C3_name_shape_witness :
    StoreGo.calculatePaddedDirectoryName "/home/u/bramble".toList 50 =
      ("/bramble_store_padding/bramble_sto".toList, none) :=
  (C3_name_shape "/home/u/bramble".toList 50 (by decide) (by decide)).1.trans (by decide)

/-! ## Lemmas on Go maps -/

theorem mapGet_mapSet {β : Type} (m : List (GoString × β)) (k k' : GoString) (v : β) :
    mapGet (mapSet m k v) k' = if k' = k then some v else mapGet m k' := by
  induction m with
  | nil => simp [mapSet, mapGet]
  | cons kv rest ih =>
    obtain ⟨k0, v0⟩ := kv
    by_cases h : k = k0
    · subst h
      by_cases h' : k' = k
      · simp [mapSet, mapGet, h']
      · simp [mapSet, mapGet, h']
    · by_cases h' : k' = k
      · subst h'
        simp [mapSet, mapGet, h, ih]
      · by_cases h'' : k' = k0
        · subst h''
          simp [mapSet, mapGet, h, h']
        · simp [mapSet, mapGet, h, h', h'', ih]

theorem mapGet_rangeAssign_of_not_mem (src : List (GoString × List GoString)) (k : GoString)
    (hk : k ∉ src.map Prod.fst) :
    ∀ dst, mapGet (rangeAssign dst src) k = mapGet dst k := by
  induction src with
  | nil => intro dst; rfl
  | cons kv rest ih =>
    intro dst
    simp only [List.map_cons, List.mem_cons, not_or] at hk
    have := ih hk.2 (mapSet dst kv.1 kv.2)
    simp only [rangeAssign, List.foldl_cons] at this ⊢
    rw [this, mapGet_mapSet, if_neg hk.1]

theorem mapGet_rangeAssign (src : List (GoString × List GoString)) (k : GoString)
    (hnodup : (src.map Prod.fst).Nodup) :
    ∀ dst, mapGet (rangeAssign dst src) k =
      match mapGet src k with
      | some v => some v
      | none => mapGet dst k := by
  induction src with
  | nil => intro dst; rfl
  | cons kv rest ih =>
    intro dst
    obtain ⟨k0, v0⟩ := kv
    simp only [List.map_cons, List.nodup_cons] at hnodup
    by_cases h : k = k0
    · subst h
      have h1 := mapGet_rangeAssign_of_not_mem rest k hnodup.1 (mapSet dst k v0)
      simp only [rangeAssign, List.foldl_cons] at h1 ⊢
      rw [h1, mapGet_mapSet]
      simp [mapGet]
    · have h1 := ih hnodup.2 (mapSet dst k0 v0)
      simp only [rangeAssign, List.foldl_cons] at h1 ⊢
      rw [h1, mapGet_mapSet, if_neg h]
      simp [mapGet, h]

/-! ## Lockfile pins (C4, C5) -/

/-- C4 (the code at the failing input): the lockfile of `/proj` pins `X` to
`a`; `AddURLHashToLockfile("X", "b")` returns the conflict error, and the
lockfile afterwards is the empty file, with no pin left in it, and so differs
from the document it held before the call. -/
theorem C4_conflict_empties_lockfile :
    (exampleProject.AddURLHashToLockfile exampleLockfiles "X".toList "b".toList).1 =
      some (Err.existingHash "X".toList "a".toList "b".toList) ∧
    exampleLockfiles "/proj/bramble.lock".toList =
      TomlFile.doc { URLHashes := some [("X".toList, "a".toList)] } ∧
    (exampleProject.AddURLHashToLockfile exampleLockfiles "X".toList "b".toList).2
      "/proj/bramble.lock".toList = TomlFile.doc { URLHashes := none } ∧
    lockEntries ((exampleProject.AddURLHashToLockfile exampleLockfiles "X".toList "b".toList).2
      "/proj/bramble.lock".toList) = some [] ∧
    (exampleProject.AddURLHashToLockfile exampleLockfiles "X".toList "b".toList).2
      "/proj/bramble.lock".toList ≠ exampleLockfiles "/proj/bramble.lock".toList := by
  decide

/-- In every conflict `AddURLHashToLockfile` returns the conflict error and
leaves the lockfile empty. -/
theorem AddURLHashToLockfile_conflict (p : Project) (files : GoString → TomlFile LockFile)
    (url hash v : GoString) (m : List (GoString × GoString))
    (hm : lockEntries (files p.lockPath) = some m)
    (hv : mapGet m url = some v) (hne : hash ≠ v) :
    p.AddURLHashToLockfile files url hash =
      (some (Err.existingHash url v hash),
        Function.update files p.lockPath (TomlFile.doc { URLHashes := none })) := by
  have hafter : Project.addAfterDecode files p.lockPath m url hash =
      (some (Err.existingHash url v hash),
        Function.update files p.lockPath (TomlFile.doc { URLHashes := none })) := by
    simp [Project.addAfterDecode, hv, Ne.symm hne]
  unfold Project.AddURLHashToLockfile
  cases hf : files p.lockPath with
  | unopenable => rw [hf] at hm; simp [lockEntries] at hm
  | garbled => rw [hf] at hm; simp [lockEntries] at hm
  | absent =>
    rw [hf] at hm
    simp only [lockEntries, Option.some.injEq] at hm
    subst hm
    exact hafter
  | doc d =>
    rw [hf] at hm
    simp only [lockEntries, Option.some.injEq] at hm
    subst hm
    exact hafter

theorem AddURLHashToLockfile_ok (p : Project) (files : GoString → TomlFile LockFile)
    (url hash : GoString) (m : List (GoString × GoString))
    (hm : lockEntries (files p.lockPath) = some m)
    (hurl : mapGet m url = none ∨ mapGet m url = some hash) :
    p.AddURLHashToLockfile files url hash =
      (none, Function.update files p.lockPath
        (TomlFile.doc { URLHashes := some (mapSet m url hash) })) := by
  have hafter : Project.addAfterDecode files p.lockPath m url hash =
      (none, Function.update files p.lockPath
        (TomlFile.doc { URLHashes := some (mapSet m url hash) })) := by
    rcases hurl with h | h <;> simp [Project.addAfterDecode, h]
  unfold Project.AddURLHashToLockfile
  cases hf : files p.lockPath with
  | unopenable => rw [hf] at hm; simp [lockEntries] at hm
  | garbled => rw [hf] at hm; simp [lockEntries] at hm
  | absent =>
    rw [hf] at hm
    simp only [lockEntries, Option.some.injEq] at hm
    subst hm
    exact hafter
  | doc d =>
    rw [hf] at hm
    simp only [lockEntries, Option.some.injEq] at hm
    subst hm
    exact hafter

/-- C5: when the lockfile is absent, empty or holds a mapping `m`, and `url`
is unmapped in it or already maps to `hash`, `AddURLHashToLockfile(url, hash)`
returns no error, the lockfile afterwards holds a mapping in which `url` maps
to `hash`, every other key has the value it had in `m` (none when it had
none), no entry of `m` is gone, and no other file is touched. -/
theorem C5_pin_added_others_kept (p : Project) (files : GoString → TomlFile LockFile)
    (url hash : GoString) (m : List (GoString × GoString))
    (hm : lockEntries (files p.lockPath) = some m)
    (hurl : mapGet m url = none ∨ mapGet m url = some hash) :
    (p.AddURLHashToLockfile files url hash).1 = none ∧
    (∃ m', (p.AddURLHashToLockfile files url hash).2 p.lockPath =
        TomlFile.doc { URLHashes := some m' } ∧
      mapGet m' url = some hash ∧
      (∀ k, k ≠ url → mapGet m' k = mapGet m k) ∧
      (∀ k v, mapGet m k = some v → mapGet m' k = some v)) ∧
    (∀ q, q ≠ p.lockPath → (p.AddURLHashToLockfile files url hash).2 q = files q) := by
  rw [AddURLHashToLockfile_ok p files url hash m hm hurl]
  refine ⟨rfl, ⟨mapSet m url hash, by simp, by simp [mapGet_mapSet], ?_, ?_⟩, ?_⟩
  · intro k hk
    simp [mapGet_mapSet, hk]
  · intro k v hkv
    rw [mapGet_mapSet]
    by_cases hk : k = url
    · subst hk
      rcases hurl with h | h
      · rw [h] at hkv; cases hkv
      · rw [h] at hkv; simp [hkv]
    · simp [hk, hkv]
  · intro q hq
    exact Function.update_noteq hq _ _

/-- C5, instance: pinning `Y` to `c` in the lockfile of `/proj`, which pins
`X` to `a`. -/
theorem C5_pin_added_others_kept_witness :
    (exampleProject.AddURLHashToLockfile exampleLockfiles "Y".toList "c".toList).1 = none ∧
    (∃ m', (exampleProject.AddURLHashToLockfile exampleLockfiles "Y".toList "c".toList).2
        exampleProject.lockPath = TomlFile.doc { URLHashes := some m' } ∧
      mapGet m' "Y".toList = some "c".toList ∧
      (∀ k, k ≠ "Y".toList → mapGet m' k = mapGet [("X".toList, "a".toList)] k) ∧
      (∀ k v, mapGet [("X".toList, "a".toList)] k = some v → mapGet m' k = some v)) ∧
    (∀ q, q ≠ exampleProject.lockPath →
      (exampleProject.AddURLHashToLockfile exampleLockfiles "Y".toList "c".toList).2 q =
        exampleLockfiles q) :=
  C5_pin_added_others_kept exampleProject exampleLockfiles "Y".toList "c".toList
    [("X".toList, "a".toList)] (by decide) (by decide)

/-! ## Module resolution (C6) and module names (C7) -/

/-- C6: for a module name that starts with the project's module name, with
`P` the project location joined with the rest of the name: when `P` exists
and `P/default.bramble` is a regular file, `resolveModule` hands
`P/default.bramble` to the evaluator, whether or not `P.bramble` exists;
otherwise, when `P.bramble` is a regular file, it hands over `P.bramble`;
otherwise it returns `errModuleDoesNotExist` and hands over no file. -/
theorem C6_resolution_precedence {γ : Type} (b : Bramble) (fs : FileSystem)
    (ev : Evaluator γ) (module P : GoString)
    (hpre : HasPrefix module b.moduleName = true)
    (hP : P = Join [b.configLocation, module.drop b.moduleName.length]) :
    ((pathExists fs P = true ∧ fileExists fs (P ++ "/default.bramble".toList) = true) →
      b.resolveModule fs ev module =
        (ev.ExecFile (P ++ "/default.bramble".toList), [P ++ "/default.bramble".toList])) ∧
    (¬ (pathExists fs P = true ∧ fileExists fs (P ++ "/default.bramble".toList) = true) →
      fileExists fs (P ++ ".bramble".toList) = true →
      b.resolveModule fs ev module =
        (ev.ExecFile (P ++ ".bramble".toList), [P ++ ".bramble".toList])) ∧
    (¬ (pathExists fs P = true ∧ fileExists fs (P ++ "/default.bramble".toList) = true) →
      fileExists fs (P ++ ".bramble".toList) = false →
      b.resolveModule fs ev module = ((none, some Err.moduleDoesNotExist), [])) := by
  subst hP
  simp only [Bramble.resolveModule, hpre, show extension = ".bramble".toList from rfl]
  generalize Join [b.configLocation, module.drop b.moduleName.length] = P
  generalize "/default.bramble".toList = D
  generalize ".bramble".toList = E
  cases h1 : pathExists fs P <;> cases h2 : fileExists fs (P ++ D) <;>
    cases h3 : fileExists fs (P ++ E) <;> simp

/-- C6, instance: with `sub/default.bramble` and `sub.bramble` both present
under `/proj`, the module `example.com/proj/sub` resolves to
`/proj/sub/default.bramble`. -/
theorem C6_resolution_precedence_witness :
    fileExists exampleProjectFiles "/proj/sub.bramble".toList = true ∧
    exampleBramble.resolveModule exampleProjectFiles exampleEvaluator
      "example.com/proj/sub".toList =
      (exampleEvaluator.ExecFile ("/proj/sub".toList ++ "/default.bramble".toList),
        ["/proj/sub".toList ++ "/default.bramble".toList]) :=
  ⟨by decide,
   (C6_resolution_precedence exampleBramble exampleProjectFiles exampleEvaluator
      "example.com/proj/sub".toList "/proj/sub".toList (by decide) (by decide)).1
      ⟨by decide, by decide⟩⟩

/-- C7 (the code at the failing input): `/proj/mydefault.bramble` is an
existing file under the project root `/proj` and is not named
`default.bramble`; `FilepathToModuleName` returns `example.com/proj/my`,
not the module name with only the extension removed,
`example.com/proj/mydefault`. -/
theorem C7_suffix_default_cut_from_longer_name :
    FileExists exampleProjectFiles "/proj/mydefault.bramble".toList = true ∧
    Rel exampleProject.Location "/proj/mydefault.bramble".toList =
      ("mydefault.bramble".toList, none) ∧
    exampleProject.FilepathToModuleName exampleProjectFiles "/proj/mydefault.bramble".toList =
      ("example.com/proj/my".toList, none) ∧
    exampleProject.FilepathToModuleName exampleProjectFiles "/proj/mydefault.bramble".toList ≠
      ("example.com/proj/mydefault".toList, none) := by
  decide

/-! ## Writes to the store (C8, C9) -/

theorem writeReader_mismatch (s : Store) (hasher : Hasher) (fs : FileSystem)
    (rnd : GoString) (src : Reader) (name validateHash : GoString)
    (hdir : fs (s.joinBramblePath ["tmp".toList]) = some Node.dir)
    (hfree : fs (Join [s.joinBramblePath ["tmp".toList], rnd]) = none)
    (hsrc : src.fails = false)
    (hvh : validateHash ≠ []) (hne : hasher.Sha256Hex src.data ≠ validateHash) :
    s.writeReader hasher fs rnd src name validateHash =
      ((hasher.Sha256Hex src.data, [], some Err.hashMismatch),
        Function.update fs (Join [s.joinBramblePath ["tmp".toList], rnd])
          (some (Node.file src.data))) := by
  unfold Store.writeReader TempFile
  generalize s.joinBramblePath ["tmp".toList] = dir at hdir hfree ⊢
  simp [hdir, hfree, hsrc, hvh, hne]

theorem writeReader_no_mismatch (s : Store) (hasher : Hasher) (fs : FileSystem)
    (rnd : GoString) (src : Reader) (name validateHash : GoString)
    (h : validateHash = [] ∨ hasher.Sha256Hex src.data = validateHash) :
    (s.writeReader hasher fs rnd src name validateHash).1.2.2 ≠ some Err.hashMismatch := by
  have hcond : ¬ (validateHash ≠ [] ∧ hasher.Sha256Hex src.data ≠ validateHash) := by
    rintro ⟨h1, h2⟩
    rcases h with h | h
    · exact h1 h
    · exact h2 h
  unfold Store.writeReader
  generalize TempFile fs (s.joinBramblePath ["tmp".toList]) rnd = t
  cases t with
  | none => simp
  | some p =>
    obtain ⟨file, fs1⟩ := p
    dsimp only
    by_cases h1 : src.fails = true
    · simp [h1]
    · rw [if_neg h1, if_neg hcond]
      split <;> simp

theorem writeReader_of_ok (s : Store) (hasher : Hasher) (fs : FileSystem)
    (rnd : GoString) (src : Reader) (name validateHash : GoString)
    (hok : (s.writeReader hasher fs rnd src name validateHash).1.2.2 = none) :
    (s.writeReader hasher fs rnd src name validateHash).1.1 = hasher.Sha256Hex src.data ∧
    (s.writeReader hasher fs rnd src name validateHash).1.2.1 =
      Join [s.storePath,
        if name = [] then hasher.String src.data else hasher.String src.data ++ '-' :: name] := by
  unfold Store.writeReader at hok ⊢
  generalize TempFile fs (s.joinBramblePath ["tmp".toList]) rnd = t at hok ⊢
  cases t with
  | none => simp at hok
  | some p =>
    obtain ⟨file, fs1⟩ := p
    dsimp only at hok ⊢
    by_cases h1 : src.fails = true
    · simp [h1] at hok
    · rw [if_neg h1] at hok ⊢
      by_cases h2 : validateHash ≠ [] ∧ hasher.Sha256Hex src.data ≠ validateHash
      · simp [h2] at hok
      · rw [if_neg h2] at hok ⊢
        generalize Rename (Function.update fs1 file (some (Node.file src.data))) file
          (s.joinStorePath [if name ≠ [] then hasher.String src.data ++ '-' :: name
            else hasher.String src.data]) = r at hok ⊢
        cases r with
        | none => simp at hok
        | some fs3 =>
          by_cases hn : name = [] <;> simp [hn, Store.joinStorePath]

theorem Join_fileName (dir e : GoString) (habs : IsAbs dir = true) (hclean : Clean dir = dir)
    (hroot : dir ≠ ['/']) (he : isFileName e) : Join [dir, e] = dir ++ '/' :: e := by
  obtain ⟨h1, h2, h3, h4⟩ := he
  have hne : dir ≠ [] := by
    obtain ⟨q, rfl⟩ := (IsAbs_iff dir).1 habs
    simp
  rw [Join_pair dir e hne, Clean_append_of_clean dir e habs hclean
    (by rw [splitSep_of_noSep e h4]; simpa using ⟨h2, h3⟩), splitSep_of_noSep e h4]
  simp [h1, hroot, joinSep]

theorem isFileName_label (h name : GoString) (hh : isFileName h) (hn : '/' ∉ name) :
    isFileName (h ++ '-' :: name) := by
  obtain ⟨h1, -, -, h4⟩ := hh
  refine ⟨by simp, ?_, ?_, ?_⟩
  · cases h with
    | nil => exact absurd rfl h1
    | cons c cs => simp
  · cases h with
    | nil => exact absurd rfl h1
    | cons c cs =>
      cases cs with
      | nil => simp
      | cons d ds => simp
  · intro hmem
    rcases List.mem_append.1 hmem with hm | hm
    · exact h4 hm
    · rcases List.mem_cons.1 hm with hm | hm
      · exact absurd hm (by decide)
      · exact hn hm

theorem writeReader_ok (s : Store) (hasher : Hasher) (fs : FileSystem)
    (rnd : GoString) (src : Reader) (name validateHash : GoString)
    (hdir : fs (s.joinBramblePath ["tmp".toList]) = some Node.dir)
    (hfree : fs (Join [s.joinBramblePath ["tmp".toList], rnd]) = none)
    (hsrc : src.fails = false)
    (hvh : validateHash = [] ∨ hasher.Sha256Hex src.data = validateHash)
    (hdist : s.joinStorePath
      [if name ≠ [] then hasher.String src.data ++ '-' :: name else hasher.String src.data] ≠
      Join [s.joinBramblePath ["tmp".toList], rnd])
    (hdest : fs (s.joinStorePath
      [if name ≠ [] then hasher.String src.data ++ '-' :: name else hasher.String src.data]) ≠
      some Node.dir) :
    (s.writeReader hasher fs rnd src name validateHash).1 =
      (hasher.Sha256Hex src.data,
        s.joinStorePath
          [if name ≠ [] then hasher.String src.data ++ '-' :: name else hasher.String src.data],
        none) := by
  have hcond : ¬ (validateHash ≠ [] ∧ hasher.Sha256Hex src.data ≠ validateHash) := by
    rintro ⟨h1, h2⟩
    rcases hvh with h | h
    · exact h1 h
    · exact h2 h
  unfold Store.writeReader TempFile
  generalize s.joinBramblePath ["tmp".toList] = dir at hdir hfree hdist ⊢
  simp only [hdir, hfree, and_self, if_true, hsrc, Bool.false_eq_true, if_false, hcond]
  generalize s.joinStorePath
    [if name ≠ [] then hasher.String src.data ++ '-' :: name else hasher.String src.data] =
    dest at hdist hdest ⊢
  unfold Rename
  simp only [Function.update_same, Function.update_idem, Function.update_noteq hdist]

theorem Join_label_escapes (H : GoString) (hH : isFileName H) :
    Join ["/b/store".toList, H ++ '-' :: "x/../y".toList] = "/b/store/y".toList := by
  have hreal := isFileName_label H ['x'] hH (by decide)
  obtain ⟨h1, h2, h3, h4⟩ := hreal
  have hsplit : splitSep ("/b/store".toList ++ '/' :: (H ++ '-' :: "x/../y".toList)) =
      [[], ['b'], "store".toList, H ++ ['-', 'x'], ['.', '.'], ['y']] := by
    have e1 : H ++ '-' :: "x/../y".toList = (H ++ ['-', 'x']) ++ '/' :: "../y".toList := by
      simp
    rw [splitSep_append_sep, e1, splitSep_append_sep, splitSep_of_noSep _ h4]
    have e2 : splitSep "/b/store".toList = [[], ['b'], "store".toList] := by decide
    have e3 : splitSep "../y".toList = [['.', '.'], ['y']] := by decide
    rw [e2, e3]
    rfl
  rw [Join_pair _ _ (by decide)]
  have hrooted : "/b/store".toList ++ '/' :: (H ++ '-' :: "x/../y".toList) =
      '/' :: ("b/store".toList ++ '/' :: (H ++ '-' :: "x/../y".toList)) := rfl
  rw [hrooted, Clean_rooted, ← hrooted, hsplit]
  have hstore : "store".toList ≠ ['.', '.'] := by decide
  simp [List.foldl, cleanStep, h1, h2, h3, joinSep]

/-- C8 (as stated, refuted): a write of the bytes `hello` into the store at
`/b` with the expected hash `00`; `/b/tmp/001` does not exist before the call,
and whatever the hasher, if its digest of `hello` differs from `00` then the
temporary file `/b/tmp/001` is still there after the call. -/
theorem C8_temp_file_left_behind :
    exampleStoreFiles "/b/tmp/001".toList = none ∧
    ¬ ∃ hasher : Hasher,
      hasher.Sha256Hex "hello".toList ≠ "00".toList ∧
      (exampleStore.writeReader hasher exampleStoreFiles "001".toList
        exampleSource "label".toList "00".toList).2
        "/b/tmp/001".toList = none := by
  refine ⟨by decide, ?_⟩
  rintro ⟨hasher, hne, hgone⟩
  have htmp : Join [exampleStore.joinBramblePath ["tmp".toList], "001".toList] =
      "/b/tmp/001".toList := by decide
  rw [writeReader_mismatch exampleStore hasher exampleStoreFiles "001".toList
    exampleSource "label".toList "00".toList
    (by decide) (by decide) rfl (by decide) hne, htmp] at hgone
  simp only [Function.update_same] at hgone
  cases hgone

/-- C8 (amended): when the temporary file can be created (`tmp` is a
directory and the drawn name is free) and the stream is read to its end, a
non-empty `validateHash` that differs from the hex digest of the stream makes
`writeReader` return the digest, an empty path and the hash-mismatch error;
nothing is renamed: every path other than the temporary file's holds what it
held before, and the temporary file stays in `tmp` with the bytes of the
stream. When `validateHash` is empty or equals the digest, no hash-mismatch
error is returned. -/
theorem C8_mismatch_no_rename (s : Store) (hasher : Hasher) (fs : FileSystem)
    (rnd : GoString) (src : Reader) (name validateHash : GoString) :
    (fs (s.joinBramblePath ["tmp".toList]) = some Node.dir →
      fs (Join [s.joinBramblePath ["tmp".toList], rnd]) = none →
      src.fails = false →
      validateHash ≠ [] → hasher.Sha256Hex src.data ≠ validateHash →
      (s.writeReader hasher fs rnd src name validateHash).1 =
        (hasher.Sha256Hex src.data, [], some Err.hashMismatch) ∧
      (∀ q, q ≠ Join [s.joinBramblePath ["tmp".toList], rnd] →
        (s.writeReader hasher fs rnd src name validateHash).2 q = fs q) ∧
      (s.writeReader hasher fs rnd src name validateHash).2
        (Join [s.joinBramblePath ["tmp".toList], rnd]) = some (Node.file src.data)) ∧
    ((validateHash = [] ∨ hasher.Sha256Hex src.data = validateHash) →
      (s.writeReader hasher fs rnd src name validateHash).1.2.2 ≠ some Err.hashMismatch) := by
  refine ⟨?_, writeReader_no_mismatch s hasher fs rnd src name validateHash⟩
  intro hdir hfree hsrc hvh hne
  rw [writeReader_mismatch s hasher fs rnd src name validateHash hdir hfree hsrc hvh hne]
  exact ⟨rfl, fun q hq => Function.update_noteq hq _ _, Function.update_same _ _ _⟩

/-- C8 (amended), instance: the bytes `hello` with the expected hash `00` and
the stand-in hasher, and the same bytes with no expected hash. -/
theorem C8_mismatch_no_rename_witness :
    ((exampleStore.writeReader exampleHasher exampleStoreFiles "001".toList
        exampleSource "label".toList "00".toList).1 =
        (exampleHasher.Sha256Hex "hello".toList, [], some Err.hashMismatch) ∧
      (∀ q, q ≠ Join [exampleStore.joinBramblePath ["tmp".toList], "001".toList] →
        (exampleStore.writeReader exampleHasher exampleStoreFiles "001".toList
          exampleSource "label".toList "00".toList).2 q =
          exampleStoreFiles q) ∧
      (exampleStore.writeReader exampleHasher exampleStoreFiles "001".toList
        exampleSource "label".toList "00".toList).2
        (Join [exampleStore.joinBramblePath ["tmp".toList], "001".toList]) =
        some (Node.file "hello".toList)) ∧
    (exampleStore.writeReader exampleHasher exampleStoreFiles "001".toList
      exampleSource "label".toList []).1.2.2 ≠
      some Err.hashMismatch :=
  ⟨(C8_mismatch_no_rename exampleStore exampleHasher exampleStoreFiles "001".toList
      exampleSource "label".toList "00".toList).1
      (by decide) (by decide) rfl (by decide) (by decide),
   (C8_mismatch_no_rename exampleStore exampleHasher exampleStoreFiles "001".toList
      exampleSource "label".toList []).2 (Or.inl rfl)⟩

/-- C9 (as stated, refuted): a write of the bytes `hello` into the store at
`/b` with the label `x/../y` and no expected hash; whatever the hasher, as long
as its string for `hello` is a file name, the write succeeds and returns the
path `/b/store/y`, which is not `/b/store/<hash>-x/../y` and has no `<hash>`
segment. -/
theorem C9_label_leaves_hash_name :
    ¬ ∃ hasher : Hasher,
      isFileName (hasher.String "hello".toList) ∧
      ((exampleStore.writeReader hasher exampleStoreFiles "001".toList exampleSource
          "x/../y".toList []).1.2.2 = none →
        (exampleStore.writeReader hasher exampleStoreFiles "001".toList exampleSource
          "x/../y".toList []).1.2.1 =
          exampleStore.storePath ++ '/' ::
            (hasher.String "hello".toList ++ '-' :: "x/../y".toList)) := by
  rintro ⟨hasher, hH, himp⟩
  have hdest : exampleStore.joinStorePath
      [if "x/../y".toList ≠ [] then hasher.String exampleSource.data ++ '-' :: "x/../y".toList
        else hasher.String exampleSource.data] = "/b/store/y".toList := by
    rw [if_pos (by decide)]
    exact Join_label_escapes _ hH
  have hres := writeReader_ok exampleStore hasher exampleStoreFiles "001".toList exampleSource
    "x/../y".toList [] (by decide) (by decide) rfl (Or.inl rfl)
    (by rw [hdest]; decide) (by rw [hdest]; decide)
  rw [hdest] at hres
  rw [hres] at himp
  have h := congrArg List.length (himp rfl)
  simp [exampleStore] at h

/-- C9 (amended): after a successful `writeReader(src, name, validateHash)`
the content hash is the hex digest of the bytes of `src` and the path is
`filepath.Join(storePath, <hash>)` when `name` is empty and
`filepath.Join(storePath, <hash>-<name>)` otherwise, `<hash>` being the
hasher's string for the bytes of `src` alone; for a cleaned absolute store
path other than `/`, a hash string that is a file name and a label without a
separator this is `storePath/<hash>` or `storePath/<hash>-<name>`. Two
successful writes of the same bytes return the same content hash, with such
labels paths with the same `<hash>` segment, and with the same label the same
path. -/
theorem C9_path_from_content_hash (s : Store) (hasher : Hasher) (fs fs' : FileSystem)
    (rnd rnd' : GoString) (src src' : Reader) (name name' validateHash validateHash' : GoString)
    (hok : (s.writeReader hasher fs rnd src name validateHash).1.2.2 = none)
    (hok' : (s.writeReader hasher fs' rnd' src' name' validateHash').1.2.2 = none) :
    (s.writeReader hasher fs rnd src name validateHash).1.1 = hasher.Sha256Hex src.data ∧
    (s.writeReader hasher fs rnd src name validateHash).1.2.1 =
      Join [s.storePath,
        if name = [] then hasher.String src.data else hasher.String src.data ++ '-' :: name] ∧
    (IsAbs s.storePath = true → Clean s.storePath = s.storePath → s.storePath ≠ ['/'] →
      isFileName (hasher.String src.data) → '/' ∉ name →
      (s.writeReader hasher fs rnd src name validateHash).1.2.1 =
        s.storePath ++ '/' ::
          (hasher.String src.data ++ if name = [] then [] else '-' :: name)) ∧
    (src.data = src'.data →
      (s.writeReader hasher fs rnd src name validateHash).1.1 =
        (s.writeReader hasher fs' rnd' src' name' validateHash').1.1 ∧
      (name = name' →
        (s.writeReader hasher fs rnd src name validateHash).1.2.1 =
          (s.writeReader hasher fs' rnd' src' name' validateHash').1.2.1) ∧
      (IsAbs s.storePath = true → Clean s.storePath = s.storePath → s.storePath ≠ ['/'] →
        isFileName (hasher.String src.data) → '/' ∉ name → '/' ∉ name' →
        (s.writeReader hasher fs rnd src name validateHash).1.2.1 =
          s.storePath ++ '/' ::
            (hasher.String src.data ++ if name = [] then [] else '-' :: name) ∧
        (s.writeReader hasher fs' rnd' src' name' validateHash').1.2.1 =
          s.storePath ++ '/' ::
            (hasher.String src.data ++ if name' = [] then [] else '-' :: name'))) := by
  obtain ⟨hc, hp⟩ := writeReader_of_ok s hasher fs rnd src name validateHash hok
  obtain ⟨hc', hp'⟩ := writeReader_of_ok s hasher fs' rnd' src' name' validateHash' hok'
  have literal : ∀ (data label : GoString), IsAbs s.storePath = true →
      Clean s.storePath = s.storePath → s.storePath ≠ ['/'] →
      isFileName (hasher.String data) → '/' ∉ label →
      Join [s.storePath,
        if label = [] then hasher.String data else hasher.String data ++ '-' :: label] =
      s.storePath ++ '/' :: (hasher.String data ++ if label = [] then [] else '-' :: label) := by
    intro data label habs hclean hroot hh hn
    by_cases hl : label = []
    · simp only [hl, if_true, List.append_nil]
      exact Join_fileName _ _ habs hclean hroot hh
    · simp only [hl, if_false]
      exact Join_fileName _ _ habs hclean hroot (isFileName_label _ _ hh hn)
  refine ⟨hc, hp, ?_, ?_⟩
  · intro habs hclean hroot hh hn
    rw [hp]
    exact literal src.data name habs hclean hroot hh hn
  · intro hdata
    refine ⟨by rw [hc, hc', hdata], fun hname => by rw [hp, hp', hdata, hname], ?_⟩
    intro habs hclean hroot hh hn hn'
    refine ⟨by rw [hp]; exact literal src.data name habs hclean hroot hh hn, ?_⟩
    rw [hp', ← hdata]
    exact literal src.data name' habs hclean hroot hh hn'

/-- C9 (amended), instance: two writes of the bytes `hello` into the store at `/b` with
the labels `label` and `other`, and a third with the label `label` again. -/
theorem C9_path_from_content_hash_witness :
    (exampleStore.writeReader exampleHasher exampleStoreFiles "001".toList exampleSource
      "label".toList []).1.2.1 = "/b/store/h11111-label".toList ∧
    (exampleStore.writeReader exampleHasher exampleStoreFiles "001".toList exampleSource
      "label".toList []).1.1 =
      (exampleStore.writeReader exampleHasher exampleStoreFiles "002".toList exampleSource
        "other".toList []).1.1 ∧
    (exampleStore.writeReader exampleHasher exampleStoreFiles "001".toList exampleSource
      "label".toList []).1.2.1 =
      (exampleStore.writeReader exampleHasher exampleStoreFiles "003".toList exampleSource
        "label".toList "hello".toList).1.2.1 :=
  ⟨((C9_path_from_content_hash exampleStore exampleHasher exampleStoreFiles exampleStoreFiles
      "001".toList "002".toList exampleSource exampleSource "label".toList "other".toList [] []
      (by decide) (by decide)).2.2.1 (by decide) (by decide) (by decide) (by decide)
      (by decide)).trans (by decide),
   ((C9_path_from_content_hash exampleStore exampleHasher exampleStoreFiles exampleStoreFiles
      "001".toList "002".toList exampleSource exampleSource "label".toList "other".toList [] []
      (by decide) (by decide)).2.2.2 rfl).1,
   ((C9_path_from_content_hash exampleStore exampleHasher exampleStoreFiles exampleStoreFiles
      "001".toList "003".toList exampleSource exampleSource "label".toList "label".toList []
      "hello".toList (by decide) (by decide)).2.2.2 rfl).2.1 rfl⟩

/-! ## Module names of files under the project root -/

theorem HasSuffix_iff (s suf : GoString) : HasSuffix s suf = true ↔ suf <:+ s := by
  unfold HasSuffix
  constructor
  · intro h
    simp only [Bool.and_eq_true, decide_eq_true_eq] at h
    rw [← h.2]
    exact List.drop_suffix _ _
  · intro h
    simp only [Bool.and_eq_true, decide_eq_true_eq]
    exact ⟨h.length_le, (List.suffix_iff_eq_drop.1 h).symm⟩

theorem HasPrefix_iff (s pre : GoString) : HasPrefix s pre = true ↔ pre <+: s := by
  unfold HasPrefix
  constructor
  · intro h
    simp only [Bool.and_eq_true, decide_eq_true_eq] at h
    rw [← h.2]
    exact List.take_prefix _ _
  · intro h
    simp only [Bool.and_eq_true, decide_eq_true_eq]
    exact ⟨h.length_le, (List.prefix_iff_eq_take.1 h).symm⟩

theorem suffix_after_sep (S B f : GoString) (hS : '/' ∉ S) :
    S <:+ B ++ '/' :: f ↔ S <:+ f := by
  induction B with
  | nil =>
    rw [List.nil_append, List.suffix_cons_iff]
    constructor
    · rintro (h | h)
      · exact absurd (by rw [h]; simp) hS
      · exact h
    · exact fun h => Or.inr h
  | cons b B ih =>
    rw [List.cons_append, List.suffix_cons_iff, ih]
    constructor
    · rintro (h | h)
      · exact absurd (by rw [h]; simp) hS
      · exact h
    · exact fun h => Or.inr h

theorem HasSuffix_after_sep (S B f : GoString) (hS : '/' ∉ S) :
    HasSuffix (B ++ '/' :: f) S = HasSuffix f S := by
  rw [Bool.eq_iff_iff, HasSuffix_iff, HasSuffix_iff, suffix_after_sep S B f hS]

theorem TrimSuffix_append (A S : GoString) : TrimSuffix (A ++ S) S = A := by
  have h : HasSuffix (A ++ S) S = true := (HasSuffix_iff _ _).2 (List.suffix_append A S)
  simp [TrimSuffix, h]

theorem TrimSuffix_of_not (s S : GoString) (h : HasSuffix s S = false) : TrimSuffix s S = s := by
  simp [TrimSuffix, h]

theorem not_HasSuffix_sep (A stem : GoString) (hne : stem ≠ []) (hs : '/' ∉ stem) :
    HasSuffix (A ++ stem) ['/'] = false := by
  cases h : HasSuffix (A ++ stem) ['/'] with
  | false => rfl
  | true =>
    exfalso
    obtain ⟨t, ht⟩ := (HasSuffix_iff _ _).1 h
    have hlast := List.dropLast_append_getLast hne
    rw [← hlast, ← List.append_assoc] at ht
    have := (List.append_inj' ht rfl).2
    apply hs
    have hmem : stem.getLast hne ∈ stem := List.getLast_mem hne
    have h1 : '/' = stem.getLast hne := by simpa using this
    rw [h1]
    exact hmem

theorem stripCommon_append (L R : List GoString) : stripCommon L (L ++ R) = ([], R) := by
  induction L with
  | nil => cases R <;> simp [stripCommon]
  | cons b L ih => simp [stripCommon, ih]

theorem joinSep_concat (dirs : List GoString) (x : GoString) :
    joinSep (dirs ++ [x]) = if dirs = [] then x else joinSep dirs ++ '/' :: x := by
  by_cases h : dirs = []
  · simp [h, joinSep]
  · rw [if_neg h, joinSep_append dirs [x] h (by simp)]
    simp [joinSep]

/-- The relative path from a cleaned absolute directory other than the root
to a path made of file names below it is that path. -/
theorem Rel_under (loc : GoString) (comps : List GoString)
    (habs : IsAbs loc = true) (hclean : Clean loc = loc) (hroot : loc ≠ ['/'])
    (hne : comps ≠ []) (hcomps : ∀ e ∈ comps, isFileName e) :
    Rel loc (loc ++ '/' :: joinSep comps) = (joinSep comps, none) := by
  have hsplit : splitSep (joinSep comps) = comps :=
    splitSep_joinSep comps hne (fun e he => (hcomps e he).2.2.2)
  have hfilter : (splitSep (joinSep comps)).filter (fun e => decide (e ≠ [])) = comps := by
    rw [hsplit]
    exact List.filter_eq_self.2 (fun e he => by simpa using (hcomps e he).1)
  have hpath : Clean (loc ++ '/' :: joinSep comps) = loc ++ '/' :: joinSep comps := by
    rw [Clean_append_of_clean loc _ habs hclean
      (by rw [hsplit]; exact fun e he => ⟨(hcomps e he).2.1, (hcomps e he).2.2.1⟩), hfilter]
    simp [hne, hroot]
  obtain ⟨q, rfl⟩ := (IsAbs_iff loc).1 habs
  have hq : q ≠ [] := fun h => hroot (by rw [h])
  unfold Rel
  rw [hclean, hpath]
  have hneq : ('/' :: q) ++ '/' :: joinSep comps ≠ '/' :: q := by
    intro h
    have := congrArg List.length h
    simp at this
  have hdot : ('/' :: q) ≠ ['.'] := by simp
  have hb : relElems ('/' :: q) = splitSep ('/' :: q) := by
    simp [relElems, hq]
  have ht : relElems (('/' :: q) ++ '/' :: joinSep comps) =
      splitSep ('/' :: q) ++ comps := by
    have h1 : relElems (('/' :: q) ++ '/' :: joinSep comps) =
        splitSep (('/' :: q) ++ '/' :: joinSep comps) := by
      simp [relElems]
    rw [h1, splitSep_append_sep, hsplit]
  simp only [hneq, hdot, if_false, hb, ht, stripCommon_append]
  simp [HasPrefix]

theorem FilepathToModuleName_under_root (p : Project) (fs : FileSystem)
    (dirs : List GoString) (file : GoString)
    (habs : IsAbs p.Location = true) (hclean : Clean p.Location = p.Location)
    (hroot : p.Location ≠ ['/'])
    (hdirs : ∀ d ∈ dirs, isFileName d) (hfile : '/' ∉ file)
    (hext : HasSuffix file BrambleExtension = true)
    (hex : FileExists fs (p.Location ++ '/' :: joinSep (dirs ++ [file])) = true) :
    p.FilepathToModuleName fs (p.Location ++ '/' :: joinSep (dirs ++ [file])) =
      (p.moduleName ++ "/".toList ++
        TrimSuffix
          (if HasSuffix file ("default".toList ++ BrambleExtension) then
            TrimSuffix (joinSep (dirs ++ [file])) ("default".toList ++ BrambleExtension)
          else TrimSuffix (joinSep (dirs ++ [file])) BrambleExtension) ['/'], none) := by
  have hfileName : isFileName file := by
    obtain ⟨t, ht⟩ := (HasSuffix_iff _ _).1 hext
    have hlen : 8 ≤ file.length := by
      rw [← ht]
      simp [BrambleExtension]
    refine ⟨?_, ?_, ?_, hfile⟩
    · intro h; rw [h] at hlen; simp at hlen
    · intro h; rw [h] at hlen; simp at hlen
    · intro h; rw [h] at hlen; simp at hlen
  have hcomps : ∀ e ∈ dirs ++ [file], isFileName e := by
    intro e he
    rcases List.mem_append.1 he with h | h
    · exact hdirs e h
    · rw [List.mem_singleton.1 h]; exact hfileName
  have hrel := Rel_under p.Location (dirs ++ [file]) habs hclean hroot (by simp) hcomps
  have hsuf1 : HasSuffix (p.Location ++ '/' :: joinSep (dirs ++ [file])) BrambleExtension =
      true := by
    rw [joinSep_concat]
    by_cases hd : dirs = []
    · rw [if_pos hd, HasSuffix_after_sep _ _ _ (by decide), hext]
    · rw [if_neg hd, ← List.cons_append, ← List.append_assoc,
        HasSuffix_after_sep _ _ _ (by decide), hext]
  have hsuf2 : HasSuffix (p.Location ++ '/' :: joinSep (dirs ++ [file]))
      ("default".toList ++ BrambleExtension) =
      HasSuffix file ("default".toList ++ BrambleExtension) := by
    rw [joinSep_concat]
    by_cases hd : dirs = []
    · rw [if_pos hd, HasSuffix_after_sep _ _ _ (by decide)]
    · rw [if_neg hd, ← List.cons_append, ← List.append_assoc,
        HasSuffix_after_sep _ _ _ (by decide)]
  unfold Project.FilepathToModuleName
  rw [hsuf1, hex, hrel, hsuf2]
  simp

/-- For an existing file under a cleaned absolute project root other than `/`,
given by the root, the directories below it and the file name:
a file named `default.bramble` gets the module name of its directory, and a
file `stem.bramble` whose name does not end in `default.bramble` gets the
module name of its path without the extension. -/
theorem FilepathToModuleName_of_name (p : Project) (fs : FileSystem)
    (dirs : List GoString) (file stem : GoString)
    (habs : IsAbs p.Location = true) (hclean : Clean p.Location = p.Location)
    (hroot : p.Location ≠ ['/'])
    (hdirs : ∀ d ∈ dirs, isFileName d) (hfile : '/' ∉ file)
    (hstem : file = stem ++ BrambleExtension)
    (hex : FileExists fs (p.Location ++ '/' :: joinSep (dirs ++ [file])) = true) :
    (file = "default.bramble".toList →
      p.FilepathToModuleName fs (p.Location ++ '/' :: joinSep (dirs ++ [file])) =
        (p.moduleName ++ '/' :: joinSep dirs, none)) ∧
    (HasSuffix file "default.bramble".toList = false → stem ≠ [] →
      p.FilepathToModuleName fs (p.Location ++ '/' :: joinSep (dirs ++ [file])) =
        (p.moduleName ++ '/' :: joinSep (dirs ++ [stem]), none)) := by
  have hext : HasSuffix file BrambleExtension = true := by
    rw [hstem]
    exact (HasSuffix_iff _ _).2 (List.suffix_append _ _)
  have hmain := FilepathToModuleName_under_root p fs dirs file habs hclean hroot hdirs hfile
    hext hex
  have hD : "default".toList ++ BrambleExtension = "default.bramble".toList := by decide
  rw [hD] at hmain
  constructor
  · intro hdef
    have hs : HasSuffix file "default.bramble".toList = true := by
      rw [hdef]
      exact (HasSuffix_iff _ _).2 (List.suffix_refl _)
    rw [hmain, hs, if_pos rfl, joinSep_concat, hdef]
    by_cases hd : dirs = []
    · rw [if_pos hd, hd]
      have h1 := TrimSuffix_append [] "default.bramble".toList
      rw [List.nil_append] at h1
      rw [h1]
      simp [TrimSuffix, HasSuffix, joinSep]
    · rw [if_neg hd]
      have h1 := TrimSuffix_append (joinSep dirs ++ ['/']) "default.bramble".toList
      rw [List.append_assoc, List.singleton_append] at h1
      rw [h1, TrimSuffix_append]
      simp
  · intro hnot hne
    have hstemSep : '/' ∉ stem := fun h => hfile (by rw [hstem]; exact List.mem_append_left _ h)
    have hjoin : joinSep (dirs ++ [file]) = joinSep (dirs ++ [stem]) ++ BrambleExtension := by
      rw [joinSep_concat, joinSep_concat, hstem]
      by_cases hd : dirs = []
      · simp [hd]
      · simp [hd]
    have hkeep : TrimSuffix (joinSep (dirs ++ [stem])) ['/'] = joinSep (dirs ++ [stem]) := by
      apply TrimSuffix_of_not
      rw [joinSep_concat]
      by_cases hd : dirs = []
      · rw [if_pos hd]
        have := not_HasSuffix_sep [] stem hne hstemSep
        simpa using this
      · rw [if_neg hd]
        have := not_HasSuffix_sep (joinSep dirs ++ ['/']) stem hne hstemSep
        simpa using this
    rw [hmain, hnot]
    simp only [Bool.false_eq_true, if_false]
    rw [hjoin, TrimSuffix_append, hkeep]
    simp

/-! ## The configuration registry (C10) -/

theorem writeConfigLink_ok (s : Store) (hasher : Hasher)
    (reg : GoString → TomlFile derivationMap) (location : GoString)
    (derivations old : List (GoString × List GoString))
    (hold : registryEntries (reg (s.configFileLocation hasher location)) = some old) :
    s.writeConfigLink hasher reg location derivations =
      (none, Function.update reg (s.configFileLocation hasher location)
        (TomlFile.doc { Location := location,
                        Derivations := some (rangeAssign old derivations) })) := by
  unfold Store.writeConfigLink
  cases hf : reg (s.configFileLocation hasher location) with
  | unopenable => rw [hf] at hold; simp [registryEntries] at hold
  | garbled => rw [hf] at hold; simp [registryEntries] at hold
  | absent =>
    rw [hf] at hold
    simp only [registryEntries, Option.some.injEq] at hold
    subst hold
    simp [Store.linkAfterDecode]
  | doc d =>
    rw [hf] at hold
    simp only [registryEntries, Option.some.injEq] at hold
    subst hold
    obtain ⟨loc, ds⟩ := d
    cases ds <;> simp [Store.linkAfterDecode]

/-- C10 (as stated, refuted): every registry file, so also the one of `/proj`
whatever the hasher, records the derivation `d` with the value `out`; after a
successful `writeConfigLink("/proj", {d: [bin]})` the record of `/proj` does
not hold `out` under `d` any more, for any hasher. -/
theorem C10_stored_value_replaced :
    ¬ ∃ hasher : Hasher,
      (exampleStore.writeConfigLink hasher (fun _ => TomlFile.doc exampleRecord)
        "/proj".toList [("d".toList, ["bin".toList])]).1 = none ∧
      ∃ m vs,
        registryEntries ((exampleStore.writeConfigLink hasher
          (fun _ => TomlFile.doc exampleRecord)
          "/proj".toList [("d".toList, ["bin".toList])]).2
          (exampleStore.configFileLocation hasher "/proj".toList)) = some m ∧
        mapGet m "d".toList = some vs ∧ "out".toList ∈ vs := by
  rintro ⟨hasher, -, m, vs, h2, h3, h4⟩
  rw [writeConfigLink_ok exampleStore hasher (fun _ => TomlFile.doc exampleRecord)
    "/proj".toList [("d".toList, ["bin".toList])] [("d".toList, ["out".toList])] rfl] at h2
  simp only [Function.update_same, registryEntries, Option.getD, Option.some.injEq] at h2
  subst h2
  have hm : mapGet (rangeAssign [("d".toList, ["out".toList])] [("d".toList, ["bin".toList])])
      "d".toList = some ["bin".toList] := by decide
  rw [hm] at h3
  cases h3
  revert h4
  decide

/-- C10 (amended): when the registry file of `location` is absent, empty or
holds the derivations `old`, `writeConfigLink(location, derivations)` returns
no error and the stored record afterwards has that location; its keys are the
keys of `old` together with the keys of `derivations`; a key of `derivations`
holds the value given in `derivations`, any other key the value it had in
`old`; no other file is touched. -/
theorem C10_registry_merged_by_key (s : Store) (hasher : Hasher)
    (reg : GoString → TomlFile derivationMap) (location : GoString)
    (derivations old : List (GoString × List GoString))
    (hold : registryEntries (reg (s.configFileLocation hasher location)) = some old)
    (hnodup : (derivations.map Prod.fst).Nodup) :
    (s.writeConfigLink hasher reg location derivations).1 = none ∧
    (∃ m', (s.writeConfigLink hasher reg location derivations).2
        (s.configFileLocation hasher location) =
        TomlFile.doc { Location := location, Derivations := some m' } ∧
      (∀ k, mapGet m' k =
        match mapGet derivations k with
        | some v => some v
        | none => mapGet old k) ∧
      (∀ k, (mapGet m' k).isSome = ((mapGet old k).isSome || (mapGet derivations k).isSome))) ∧
    (∀ q, q ≠ s.configFileLocation hasher location →
      (s.writeConfigLink hasher reg location derivations).2 q = reg q) := by
  rw [writeConfigLink_ok s hasher reg location derivations old hold]
  have hget := fun k => mapGet_rangeAssign derivations k hnodup old
  refine ⟨rfl, ⟨rangeAssign old derivations, by simp, hget, ?_⟩, ?_⟩
  · intro k
    rw [hget k]
    cases mapGet derivations k <;> cases mapGet old k <;> simp
  · intro q hq
    exact Function.update_noteq hq _ _

/-- C10 (amended), instance: the record of `/proj` holds `d` with `out` and
`e` with `lib`; linking `d` with `bin` keeps `e` and gives `d` the value `bin`. -/
theorem C10_registry_merged_by_key_witness :
    (exampleStore.writeConfigLink exampleHasher exampleRegistry "/proj".toList
      [("d".toList, ["bin".toList])]).1 = none ∧
    (∃ m', (exampleStore.writeConfigLink exampleHasher exampleRegistry "/proj".toList
        [("d".toList, ["bin".toList])]).2
        (exampleStore.configFileLocation exampleHasher "/proj".toList) =
        TomlFile.doc { Location := "/proj".toList, Derivations := some m' } ∧
      (∀ k, mapGet m' k =
        match mapGet [("d".toList, ["bin".toList])] k with
        | some v => some v
        | none => mapGet [("d".toList, ["out".toList]), ("e".toList, ["lib".toList])] k) ∧
      (∀ k, (mapGet m' k).isSome =
        ((mapGet [("d".toList, ["out".toList]), ("e".toList, ["lib".toList])] k).isSome ||
          (mapGet [("d".toList, ["bin".toList])] k).isSome))) ∧
    (∀ q, q ≠ exampleStore.configFileLocation exampleHasher "/proj".toList →
      (exampleStore.writeConfigLink exampleHasher exampleRegistry "/proj".toList
        [("d".toList, ["bin".toList])]).2 q = exampleRegistry q) :=
  C10_registry_merged_by_key exampleStore exampleHasher exampleRegistry "/proj".toList
    [("d".toList, ["bin".toList])]
    [("d".toList, ["out".toList]), ("e".toList, ["lib".toList])] (by decide) (by decide)

/-! ## Locating the project (C11) -/

theorem cleanStep_rooted_fileNames (out : List GoString) (e : GoString)
    (hout : ∀ x ∈ out, isFileName x) (he : '/' ∉ e) :
    ∀ x ∈ cleanStep true out e, isFileName x := by
  unfold cleanStep
  by_cases h1 : e = []
  · simpa [h1] using hout
  by_cases h2 : e = ['.']
  · simpa [h2] using hout
  by_cases h3 : e = ['.', '.']
  · subst h3
    cases out with
    | nil => simp
    | cons top rest =>
      have htop : top ≠ ['.', '.'] := (hout top (by simp)).2.2.1
      simp only [if_neg h1, if_neg h2, if_true, htop, ne_eq, not_false_eq_true]
      exact fun x hx => hout x (by simp [hx])
  · simp only [if_neg h1, if_neg h2, if_neg h3]
    intro x hx
    rcases List.mem_cons.1 hx with hx | hx
    · rw [hx]; exact ⟨h1, h2, h3, he⟩
    · exact hout x hx

theorem foldl_cleanStep_rooted_fileNames (xs : List GoString) :
    ∀ out : List GoString, (∀ x ∈ out, isFileName x) → (∀ e ∈ xs, '/' ∉ e) →
      ∀ x ∈ xs.foldl (cleanStep true) out, isFileName x := by
  induction xs with
  | nil => intro out hout _; simpa using hout
  | cons e xs ih =>
    intro out hout hxs
    rw [List.foldl_cons]
    exact ih _ (cleanStep_rooted_fileNames out e hout (hxs e (by simp)))
      (fun y hy => hxs y (by simp [hy]))

/-- The cleaned form of an absolute path is `/` followed by file names joined
with separators. -/
theorem Clean_abs_elems (p : GoString) (habs : IsAbs p = true) :
    ∃ es : List GoString, (∀ e ∈ es, isFileName e) ∧ Clean p = dirOf es := by
  obtain ⟨q, rfl⟩ := (IsAbs_iff p).1 habs
  refine ⟨((splitSep ('/' :: q)).foldl (cleanStep true) []).reverse, ?_, Clean_rooted q⟩
  intro e he
  exact foldl_cleanStep_rooted_fileNames _ [] (by simp) (noSep_of_mem_splitSep _) e
    (List.mem_reverse.1 he)

theorem foldl_dirOf (es : List GoString) (hes : ∀ e ∈ es, isFileName e) :
    (splitSep (dirOf es)).foldl (cleanStep true) [] = es.reverse := by
  have hsplit : splitSep (dirOf es) = [] :: splitSep (joinSep es) := by
    simp [dirOf, splitSep]
  rw [hsplit]
  by_cases hne : es = []
  · subst hne
    simp [joinSep, splitSep, cleanStep]
  · rw [splitSep_joinSep es hne (fun e he => (hes e he).2.2.2),
      foldl_cleanStep_plain true _ _ (by
        intro e he
        rcases List.mem_cons.1 he with h | h
        · subst h; simp
        · exact ⟨(hes e h).2.1, (hes e h).2.2.1⟩)]
    rw [List.filter_cons_of_neg (by simp), List.append_nil]
    congr 1
    exact List.filter_eq_self.2 (fun e he => by simpa using (hes e he).1)

theorem Clean_dirOf (es : List GoString) (hes : ∀ e ∈ es, isFileName e) :
    Clean (dirOf es) = dirOf es := by
  have h := Clean_rooted (joinSep es)
  rw [show ('/' :: joinSep es) = dirOf es from rfl, foldl_dirOf es hes, List.reverse_reverse] at h
  exact h

theorem Join_dirOf (es : List GoString) (hes : ∀ e ∈ es, isFileName e) (X : GoString) :
    Join [dirOf es, X] =
      '/' :: joinSep ((splitSep X).foldl (cleanStep true) es.reverse).reverse := by
  rw [Join_pair _ _ (by simp [dirOf])]
  have h := Clean_rooted (joinSep es ++ '/' :: X)
  rw [show ('/' :: (joinSep es ++ '/' :: X)) = dirOf es ++ '/' :: X from rfl,
    splitSep_append_sep, List.foldl_append, foldl_dirOf es hes] at h
  exact h

theorem Join_dirOf_parent (es : List GoString) (hes : ∀ e ∈ es, isFileName e) :
    Join [dirOf es, "..".toList] = dirOf es.dropLast := by
  rw [Join_dirOf es hes]
  have hs : splitSep "..".toList = [['.', '.']] := by decide
  rw [hs]
  simp only [List.foldl_cons, List.foldl_nil]
  rcases List.eq_nil_or_concat es with h | ⟨init, last, h⟩
  · subst h
    simp [cleanStep, dirOf]
  · subst h
    have hlast : last ≠ ['.', '.'] := (hes last (by simp)).2.2.1
    simp [cleanStep, hlast, dirOf]

theorem Join_dirOf_child (es : List GoString) (hes : ∀ e ∈ es, isFileName e)
    (name : GoString) (hname : isFileName name) :
    Join [dirOf es, name] = dirOf (es ++ [name]) := by
  rw [Join_dirOf es hes, splitSep_of_noSep name hname.2.2.2]
  simp [cleanStep, hname.1, hname.2.1, hname.2.2.1, dirOf]

theorem dirOf_ne_parent (init : List GoString) (last : GoString) (hlast : last ≠ []) :
    dirOf (init ++ [last]) ≠ dirOf init := by
  intro h
  have hl := congrArg List.length h
  simp only [dirOf, List.length_cons, joinSep_concat] at hl
  by_cases hi : init = []
  · subst hi
    simp [joinSep] at hl
    exact hlast hl
  · rw [if_neg hi] at hl
    simp at hl

theorem findConfigLoop_nearest (fs : FileSystem) :
    ∀ (n : Nat) (es : List GoString), es.length = n → (∀ e ∈ es, isFileName e) →
      ∀ fuel, n < fuel →
        ∃ found location, findConfigLoop fs fuel (dirOf es) = some (found, location) ∧
          (found = true → ∃ k, k ≤ n ∧ location = dirOf (es.take k) ∧
            configIn fs (es.take k) = true ∧
            ∀ j, k < j → j ≤ n → configIn fs (es.take j) = false) ∧
          (found = false → location = [] ∧ ∀ k, k ≤ n → configIn fs (es.take k) = false) := by
  have htoml : isFileName "bramble.toml".toList := by decide
  intro n
  induction n with
  | zero =>
    intro es hlen hes fuel hfuel
    have hnil : es = [] := List.length_eq_zero.1 hlen
    subst hnil
    obtain ⟨f, rfl⟩ := Nat.exists_eq_succ_of_ne_zero (Nat.ne_of_gt hfuel)
    unfold findConfigLoop
    rw [Join_dirOf_child [] hes _ htoml, Join_dirOf_parent [] hes]
    by_cases hc : FileExists fs (dirOf ([] ++ ["bramble.toml".toList])) = true
    · refine ⟨true, dirOf [], by rw [if_pos hc], ?_, by simp⟩
      intro _
      exact ⟨0, le_refl _, rfl, hc, fun j h1 h2 => absurd h1 (by omega)⟩
    · have hc' : FileExists fs (dirOf ([] ++ ["bramble.toml".toList])) = false := by
        simpa using hc
      refine ⟨false, [], by rw [if_neg hc]; rfl, by simp, ?_⟩
      intro _
      refine ⟨rfl, fun k hk => ?_⟩
      have : k = 0 := by omega
      subst this
      exact hc'
  | succ n ih =>
    intro es hlen hes fuel hfuel
    rcases List.eq_nil_or_concat es with h | ⟨init, last, h⟩
    · subst h
      simp at hlen
    rw [List.concat_eq_append] at h
    subst h
    have hinit : init.length = n := by
      simp at hlen
      exact hlen
    have hesinit : ∀ e ∈ init, isFileName e := fun e he => hes e (by simp [he])
    have hlast : isFileName last := hes last (by simp)
    obtain ⟨f, rfl⟩ := Nat.exists_eq_succ_of_ne_zero (Nat.ne_of_gt (Nat.lt_of_le_of_lt (Nat.zero_le _) hfuel))
    have htake : ∀ k, k ≤ n → (init ++ [last]).take k = init.take k := by
      intro k hk
      exact List.take_append_of_le_length (by omega)
    have hfull : (init ++ [last]).take (n + 1) = init ++ [last] := by
      apply List.take_of_length_le
      simp [hinit]
    unfold findConfigLoop
    rw [Join_dirOf_child _ hes _ htoml, Join_dirOf_parent _ hes, List.dropLast_concat]
    by_cases hc : FileExists fs (dirOf (init ++ [last] ++ ["bramble.toml".toList])) = true
    · refine ⟨true, dirOf (init ++ [last]), by rw [if_pos hc], ?_, by simp⟩
      intro _
      refine ⟨n + 1, le_refl _, by rw [hfull], by rw [hfull]; exact hc, ?_⟩
      intro j h1 h2
      omega
    · have hc' : FileExists fs (dirOf (init ++ [last] ++ ["bramble.toml".toList])) = false := by
        simpa using hc
      obtain ⟨found, location, hrun, htrue, hfalse⟩ := ih init hinit hesinit f (by omega)
      refine ⟨found, location, ?_, ?_, ?_⟩
      · rw [if_neg hc, if_neg (dirOf_ne_parent init last hlast.1)]
        exact hrun
      · intro hf
        obtain ⟨k, hk, hloc, hcfg, hnear⟩ := htrue hf
        refine ⟨k, by omega, by rw [htake k hk]; exact hloc, by rw [htake k hk]; exact hcfg, ?_⟩
        intro j h1 h2
        by_cases hj : j ≤ n
        · rw [htake j hj]
          exact hnear j h1 hj
        · have : j = n + 1 := by omega
          subst this
          rw [hfull]
          exact hc'
      · intro hf
        obtain ⟨hloc, hnone⟩ := hfalse hf
        refine ⟨hloc, fun k hk => ?_⟩
        by_cases hj : k ≤ n
        · rw [htake k hj]
          exact hnone k hj
        · have : k = n + 1 := by omega
          subst this
          rw [hfull]
          exact hc'

theorem findConfig_abs (fuel : Nat) (fs : FileSystem) (cwd : Option GoString)
    (wd : GoString) (es : List GoString) (habs : IsAbs wd = true)
    (hes : ∀ e ∈ es, isFileName e) (hclean : Clean wd = dirOf es) :
    findConfig fuel fs cwd wd = findConfigLoop fs fuel (dirOf es) ∧
    findConfig fuel fs cwd (dirOf es) = findConfigLoop fs fuel (dirOf es) := by
  have hne : dirOf es ≠ [] := by simp [dirOf]
  have habs' : IsAbs (dirOf es) = true := (IsAbs_iff _).2 ⟨joinSep es, rfl⟩
  constructor
  · simp [findConfig, Abs, habs, hclean, hne]
  · simp [findConfig, Abs, habs', Clean_dirOf es hes, hne]

/-- C11: for an absolute start directory, whose cleaned form is `/` followed
by the elements `es`, `findConfig` returns once it may run for more than
`len(es)` iterations; it returns `(true, d)` exactly when `d` is the directory
of the longest initial part of `es`, the start directory and its ancestors up
to the root being these, that contains a regular file `bramble.toml`; it
returns not found, with the empty location, exactly when none of them does,
and `NewProject` fails with `ErrNotInProject` exactly then. -/
theorem C11_nearest_config (fs : FileSystem) (cwd : Option GoString) (wd : GoString)
    (habs : IsAbs wd = true) :
    ∃ es : List GoString, (∀ e ∈ es, isFileName e) ∧ Clean wd = dirOf es ∧
      ∀ fuel, es.length < fuel →
        ∃ found location, findConfig fuel fs cwd wd = some (found, location) ∧
          (∀ d, (found = true ∧ location = d) ↔
            ∃ k, k ≤ es.length ∧ d = dirOf (es.take k) ∧ configIn fs (es.take k) = true ∧
              ∀ j, k < j → j ≤ es.length → configIn fs (es.take j) = false) ∧
          (found = false ↔ ∀ k, k ≤ es.length → configIn fs (es.take k) = false) ∧
          (found = false → location = []) ∧
          (∀ (configs : GoString → TomlFile Config) (locks : GoString → TomlFile LockFile),
            NewProject fuel fs cwd configs locks wd = some (none, some Err.notInProject) ↔
              found = false) := by
  obtain ⟨es, hes, hclean⟩ := Clean_abs_elems wd habs
  refine ⟨es, hes, hclean, ?_⟩
  intro fuel hfuel
  obtain ⟨found, location, hrun, htrue, hfalse⟩ :=
    findConfigLoop_nearest fs es.length es rfl hes fuel hfuel
  obtain ⟨hfc, hfc'⟩ := findConfig_abs fuel fs cwd wd es habs hes hclean
  refine ⟨found, location, by rw [hfc]; exact hrun, ?_, ?_, fun hf => (hfalse hf).1, ?_⟩
  · intro d
    constructor
    · rintro ⟨hf, rfl⟩
      exact htrue hf
    · rintro ⟨k, hk, hd, hcfg, hnear⟩
      cases found with
      | false =>
        have := (hfalse rfl).2 k hk
        rw [this] at hcfg
        cases hcfg
      | true =>
        refine ⟨rfl, ?_⟩
        obtain ⟨k', hk', hloc, hcfg', hnear'⟩ := htrue rfl
        have hkk : k' = k := by
          rcases Nat.lt_trichotomy k' k with h | h | h
          · have := hnear' k h hk
            rw [this] at hcfg
            cases hcfg
          · exact h
          · have := hnear k' h hk'
            rw [this] at hcfg'
            cases hcfg'
        rw [hloc, hd, hkk]
  · constructor
    · intro hf
      exact (hfalse hf).2
    · intro hnone
      cases found with
      | false => rfl
      | true =>
        obtain ⟨k, hk, -, hcfg, -⟩ := htrue rfl
        rw [hnone k hk] at hcfg
        cases hcfg
  · intro configs locks
    have hAbs : Abs cwd wd = (dirOf es, none) := by simp [Abs, habs, hclean]
    unfold NewProject
    rw [hAbs]
    simp only [hfc', hrun]
    cases found with
    | false => simp
    | true =>
      simp only [Bool.true_eq_false, iff_false]
      generalize Join [location, "bramble.toml".toList] = tomlPath
      generalize Join [location, "bramble.lock".toList] = lockPath
      cases configs tomlPath with
      | unopenable => simp
      | absent => simp
      | garbled => simp
      | doc config =>
        cases hl : FileExists fs lockPath <;> cases locks lockPath <;> simp

/-- C11, instance: started in `/proj/sub/deep`, with `bramble.toml` only in
`/proj`, `findConfig` returns `/proj` within four iterations. -/
theorem C11_nearest_config_witness :
    ∃ es : List GoString, (∀ e ∈ es, isFileName e) ∧
      Clean "/proj/sub/deep".toList = dirOf es ∧
      ∀ fuel, es.length < fuel →
        ∃ found location,
          findConfig fuel exampleTree none "/proj/sub/deep".toList = some (found, location) ∧
          (∀ d, (found = true ∧ location = d) ↔
            ∃ k, k ≤ es.length ∧ d = dirOf (es.take k) ∧
              configIn exampleTree (es.take k) = true ∧
              ∀ j, k < j → j ≤ es.length → configIn exampleTree (es.take j) = false) ∧
          (found = false ↔ ∀ k, k ≤ es.length → configIn exampleTree (es.take k) = false) ∧
          (found = false → location = []) ∧
          (∀ (configs : GoString → TomlFile Config) (locks : GoString → TomlFile LockFile),
            NewProject fuel exampleTree none configs locks "/proj/sub/deep".toList =
              some (none, some Err.notInProject) ↔ found = false) :=
  C11_nearest_config exampleTree none "/proj/sub/deep".toList (by decide)

/-- The walk of `findConfig` on two start directories: from `/proj/sub/deep`
it finds `/proj`, from `/other/x` it reaches the root and finds nothing; with
too few iterations allowed it has not returned. -/
theorem findConfig_examples :
    findConfig 4 exampleTree none "/proj/sub/deep".toList = some (true, "/proj".toList) ∧
    findConfig 4 exampleTree none "/proj/sub/../sub/deep/".toList =
      some (true, "/proj".toList) ∧
    findConfig 3 exampleTree none "/other/x".toList = some (false, []) ∧
    findConfig 2 exampleTree none "/proj/sub/deep".toList = none := by
  decide

/-! ## The derivation discipline (C12, C16) -/

theorem cpPaths_not_dirty (h : Helpers) (args : List Value) :
    (cpPaths h args).2 ≠ some Err.buildContextDirty := by
  induction args with
  | nil => simp [cpPaths]
  | cons arg rest ih =>
    unfold cpPaths
    rcases hv : h.ValueToString arg with ⟨str, _ | msg⟩
    · by_cases habs : IsAbs str = true
      · rcases hr : cpPaths h rest with ⟨paths, _ | e⟩
        · simp [habs]
        · rw [hr] at ih
          simpa [habs] using ih
      · simp [habs]
    · simp

theorem step_sets_flag (h : Helpers) (op : Op) (s : Bramble × World)
    (hop : op ≠ Op.CalledDerivation) : (step h op s).2.1.afterDerivation = true := by
  cases op with
  | AfterDerivation => rfl
  | CalledDerivation => exact absurd rfl hop
  | input args kwargs => rfl
  | mkdir args kwargs =>
    simp only [step, OS.mkdir]
    cases unpackPath args kwargs <;> rfl
  | cp args kwargs =>
    simp only [step, OS.cp]
    by_cases hk : kwargs = []
    · rcases hc : cpPaths h args with ⟨paths, _ | e⟩ <;> simp [hk, Bramble.AfterDerivation]
    · simp [hk, Bramble.AfterDerivation]

theorem step_keeps_flag (h : Helpers) (op : Op) (s : Bramble × World)
    (hs : s.1.afterDerivation = true) : (step h op s).2.1.afterDerivation = true := by
  by_cases hop : op = Op.CalledDerivation
  · subst hop
    exact hs
  · exact step_sets_flag h op s hop

theorem runOps_flag (h : Helpers) (ops : List Op) : ∀ s : Bramble × World,
    (runOps h ops s).2.1.afterDerivation =
      (s.1.afterDerivation || ops.any (fun op => decide (op ≠ Op.CalledDerivation))) := by
  induction ops with
  | nil => intro s; simp [runOps]
  | cons op ops ih =>
    intro s
    simp only [runOps, ih, List.any_cons]
    by_cases hop : op = Op.CalledDerivation
    · subst hop
      simp [step]
    · rw [step_sets_flag h op s hop]
      simp [hop]

theorem runOps_keeps_flag (h : Helpers) (ops : List Op) (s : Bramble × World)
    (hs : s.1.afterDerivation = true) : (runOps h ops s).2.1.afterDerivation = true := by
  rw [runOps_flag, hs]
  rfl

theorem runOps_length (h : Helpers) (ops : List Op) : ∀ s : Bramble × World,
    (runOps h ops s).1.length = ops.length := by
  induction ops with
  | nil => intro s; rfl
  | cons op ops ih => intro s; simp [runOps, ih]

theorem runOps_append (h : Helpers) (pre post : List Op) : ∀ s : Bramble × World,
    runOps h (pre ++ post) s =
      ((runOps h pre s).1 ++ (runOps h post (runOps h pre s).2).1,
        (runOps h post (runOps h pre s).2).2) := by
  induction pre with
  | nil => intro s; simp [runOps]
  | cons op pre ih => intro s; simp [runOps, ih]

theorem runOps_called_result (h : Helpers) (pre post : List Op) (s : Bramble × World) :
    (runOps h (pre ++ Op.CalledDerivation :: post) s).1[pre.length]? =
      some ((runOps h pre s).2.1.CalledDerivation) := by
  rw [runOps_append]
  simp only [runOps, step]
  rw [List.getElem?_append_right (by rw [runOps_length])]
  simp [runOps_length]

/-- C12 (as stated, refuted): in the context of the project at `/proj` a
derivation call is accepted (`CalledDerivation` returns nil and leaves the
context as it is); `os.mkdir("/b/new")` invoked afterwards returns `None` and
no error and has created the directory, and `os.input()` invoked afterwards
returns the line read from standard input and no error. -/
theorem C12_builtins_run_after_derivation :
    exampleBramble.CalledDerivation = none ∧
    (step exampleHelpers Op.CalledDerivation (exampleBramble, exampleWorld)).2.1 =
      exampleBramble ∧
    (OS.mkdir exampleBramble exampleWorld [Value.str "/b/new".toList] []).1 =
      (some Value.None, none) ∧
    exampleWorld.fs "/b/new".toList = none ∧
    (OS.mkdir exampleBramble exampleWorld [Value.str "/b/new".toList] []).2.2.fs
      "/b/new".toList = some Node.dir ∧
    (OS.input exampleBramble exampleWorld [] []).1 =
      (some (Value.str "yes\n".toList), none) ∧
    (OS.input exampleBramble exampleWorld [] []).2.2.stdin = [] := by
  decide

/-- C12 (amended): in every evaluation context the builtins `os.input`,
`os.mkdir` and `os.cp` never return the build-context-dirty error and do not
look at the flag, so they run the same before and after a derivation; each of
them sets the flag, also when it fails, and from then on every derivation call
in that context (`CalledDerivation`) fails with the build-context-dirty error,
whatever is called in between. -/
theorem C12_derivation_refused_after_builtins (h : Helpers) (b : Bramble) (w : World)
    (args : List Value) (kwargs : List (GoString × Value)) :
    ((OS.input b w args kwargs).1.2 ≠ some Err.buildContextDirty ∧
      (OS.mkdir b w args kwargs).1.2 ≠ some Err.buildContextDirty ∧
      (OS.cp h b w args kwargs).1.2 ≠ some Err.buildContextDirty) ∧
    (∀ flag : Bool,
      OS.input { b with afterDerivation := flag } w args kwargs = OS.input b w args kwargs ∧
      OS.mkdir { b with afterDerivation := flag } w args kwargs = OS.mkdir b w args kwargs ∧
      OS.cp h { b with afterDerivation := flag } w args kwargs = OS.cp h b w args kwargs) ∧
    (∀ ops : List Op,
      (runOps h ops (OS.input b w args kwargs).2).2.1.CalledDerivation =
        some Err.buildContextDirty ∧
      (runOps h ops (OS.mkdir b w args kwargs).2).2.1.CalledDerivation =
        some Err.buildContextDirty ∧
      (runOps h ops (OS.cp h b w args kwargs).2).2.1.CalledDerivation =
        some Err.buildContextDirty) := by
  have hin := step_sets_flag h (Op.input args kwargs) (b, w) (by simp)
  have hmk := step_sets_flag h (Op.mkdir args kwargs) (b, w) (by simp)
  have hcp := step_sets_flag h (Op.cp args kwargs) (b, w) (by simp)
  simp only [step] at hin hmk hcp
  refine ⟨⟨?_, ?_, ?_⟩, fun flag => ⟨rfl, rfl, rfl⟩, fun ops => ⟨?_, ?_, ?_⟩⟩
  · simp only [OS.input]
    induction w.stdin with
    | nil => simp [readString]
    | cons c rest ih =>
      by_cases hc : '\n' ∈ c
      · simp [readString, hc]
      · simpa [readString, hc] using ih
  · simp only [OS.mkdir]
    cases unpackPath args kwargs with
    | none => simp
    | some path =>
      by_cases hp : w.fs path = none <;> simp [Mkdir, hp]
  · simp only [OS.cp]
    by_cases hk : kwargs = []
    · have hd := cpPaths_not_dirty h args
      rcases hc : cpPaths h args with ⟨paths, _ | e⟩
      · rcases hr : (h.cp w.fs [] paths).2 with _ | msg <;> simp [hk, hr]
      · rw [hc] at hd
        simpa [hk] using hd
    · simp [hk]
  · simp [Bramble.CalledDerivation, runOps_keeps_flag h ops _ hin]
  · simp [Bramble.CalledDerivation, runOps_keeps_flag h ops _ hmk]
  · simp [Bramble.CalledDerivation, runOps_keeps_flag h ops _ hcp]

/-- C16: in a sequence of calls on a context that starts with the flag unset,
a `CalledDerivation` call returns the build-context-dirty error exactly when a
call other than `CalledDerivation` precedes it, which in a sequence of
`AfterDerivation` and `CalledDerivation` calls is an `AfterDerivation` call;
a flag that is set stays set, `CalledDerivation` leaves the context as it is,
and `os.input`, `os.mkdir` and `os.cp` set the flag whatever their arguments. -/
theorem C16_dirty_iff_after_derivation_before (h : Helpers) (b : Bramble) (w : World)
    (pre post : List Op) (hb : b.afterDerivation = false) :
    (runOps h (pre ++ Op.CalledDerivation :: post) (b, w)).1[pre.length]? =
      some (if ∃ op ∈ pre, op ≠ Op.CalledDerivation then some Err.buildContextDirty
        else none) ∧
    ((∀ op ∈ pre, op = Op.AfterDerivation ∨ op = Op.CalledDerivation) →
      ((runOps h (pre ++ Op.CalledDerivation :: post) (b, w)).1[pre.length]? =
        some (some Err.buildContextDirty) ↔ Op.AfterDerivation ∈ pre)) ∧
    (∀ (s : Bramble × World) (ops : List Op), s.1.afterDerivation = true →
      (runOps h ops s).2.1.afterDerivation = true) ∧
    (∀ s : Bramble × World, (step h Op.CalledDerivation s).2 = s) ∧
    (∀ (c : Bramble) (v : World) (args : List Value) (kwargs : List (GoString × Value)),
      (OS.input c v args kwargs).2.1.afterDerivation = true ∧
      (OS.mkdir c v args kwargs).2.1.afterDerivation = true ∧
      (OS.cp h c v args kwargs).2.1.afterDerivation = true) := by
  have hres : (runOps h (pre ++ Op.CalledDerivation :: post) (b, w)).1[pre.length]? =
      some (if ∃ op ∈ pre, op ≠ Op.CalledDerivation then some Err.buildContextDirty
        else none) := by
    rw [runOps_called_result, Bramble.CalledDerivation, runOps_flag, hb]
    by_cases hex : ∃ op ∈ pre, op ≠ Op.CalledDerivation
    · have : pre.any (fun op => decide (op ≠ Op.CalledDerivation)) = true := by
        simpa using hex
      simp [this, hex]
    · have : pre.any (fun op => decide (op ≠ Op.CalledDerivation)) = false := by
        simpa using hex
      simp [this, hex]
  refine ⟨hres, ?_, fun s ops hs => runOps_keeps_flag h ops s hs, fun s => rfl, ?_⟩
  · intro hpre
    rw [hres]
    constructor
    · intro hd
      by_cases hex : ∃ op ∈ pre, op ≠ Op.CalledDerivation
      · obtain ⟨op, hop, hne⟩ := hex
        rcases hpre op hop with h1 | h1
        · rw [← h1]; exact hop
        · exact absurd h1 hne
      · simp [hex] at hd
    · intro hmem
      have hex : ∃ op ∈ pre, op ≠ Op.CalledDerivation := ⟨_, hmem, by simp⟩
      simp [hex]
  · intro c v args kwargs
    exact ⟨step_sets_flag h (Op.input args kwargs) (c, v) (by simp),
      step_sets_flag h (Op.mkdir args kwargs) (c, v) (by simp),
      step_sets_flag h (Op.cp args kwargs) (c, v) (by simp)⟩

/-- C16, instance: `CalledDerivation`, `AfterDerivation`, `CalledDerivation`
on the context of the project at `/proj`: the second derivation call is
refused, the first one is not. -/
theorem C16_dirty_iff_after_derivation_before_witness :
    (runOps exampleHelpers ([Op.CalledDerivation, Op.AfterDerivation] ++
      Op.CalledDerivation :: []) (exampleBramble, exampleWorld)).1[2]? =
      some (some Err.buildContextDirty) ∧
    (runOps exampleHelpers ([] ++ Op.CalledDerivation :: [Op.AfterDerivation])
      (exampleBramble, exampleWorld)).1[0]? = some none :=
  ⟨((C16_dirty_iff_after_derivation_before exampleHelpers exampleBramble exampleWorld
      [Op.CalledDerivation, Op.AfterDerivation] [] rfl).2.1 (by decide)).2 (by decide),
   (C16_dirty_iff_after_derivation_before exampleHelpers exampleBramble exampleWorld
      [] [Op.AfterDerivation] rfl).1.trans (by decide)⟩

/-! ## The test run (C13) -/

theorem testErrorReporter_collects (reports : List GoString) :
    ∀ e : testErrorReporter,
      (reports.foldl testErrorReporter.Error e).errors = e.errors ++ reports := by
  induction reports with
  | nil => intro e; simp
  | cons r rest ih =>
    intro e
    rw [List.foldl_cons, ih]
    simp [testErrorReporter.Error]

theorem ranOf_cons_skip (filename name : GoString) (fn : Global)
    (rest : List (GoString × Global)) (hn : HasPrefix name "test_".toList = false) :
    ranOf filename ((name, fn) :: rest) = ranOf filename rest := by
  simp only [ranOf, List.filterMap_cons, hn, Bool.false_eq_true, if_false]

theorem ranOf_cons_other (filename name : GoString) (rest : List (GoString × Global)) :
    ranOf filename ((name, Global.other) :: rest) = ranOf filename rest := by
  simp only [ranOf, List.filterMap_cons, ite_self]

theorem ranOf_cons_function (filename name : GoString) (reports : List GoString)
    (err : Option Err) (rest : List (GoString × Global))
    (hn : HasPrefix name "test_".toList = true) :
    ranOf filename ((name, Global.function reports err) :: rest) =
      { file := filename, name := name, errors := reports } :: ranOf filename rest := by
  simp only [ranOf, List.filterMap_cons, hn, if_true]

theorem testGlobals_cons_skip (failFast : Bool) (filename name : GoString) (fn : Global)
    (rest : List (GoString × Global)) (hn : HasPrefix name "test_".toList = false) :
    testGlobals failFast filename ((name, fn) :: rest) = testGlobals failFast filename rest := by
  simp only [testGlobals, hn, Bool.not_false, if_true]

theorem testGlobals_cons_other (failFast : Bool) (filename name : GoString)
    (rest : List (GoString × Global)) :
    testGlobals failFast filename ((name, Global.other) :: rest) =
      testGlobals failFast filename rest := by
  simp only [testGlobals, ite_self]

theorem testGlobals_cons_quiet (failFast : Bool) (filename name : GoString)
    (rest : List (GoString × Global)) (hn : HasPrefix name "test_".toList = true) :
    testGlobals failFast filename ((name, Global.function [] none) :: rest) =
      ((testGlobals failFast filename rest).1,
        { file := filename, name := name, errors := [] } ::
          (testGlobals failFast filename rest).2) := by
  simp only [testGlobals, hn, Bool.not_true, Bool.false_eq_true, if_false, List.foldl_nil,
    List.length_nil, gt_iff_lt, Nat.lt_irrefl, false_and]

theorem testGlobals_cons_failure (filename name : GoString) (reports : List GoString)
    (err : Option Err) (rest : List (GoString × Global))
    (hn : HasPrefix name "test_".toList = true) (hreports : reports ≠ []) :
    testGlobals true filename ((name, Global.function reports err) :: rest) =
      (some Err.quiet, [{ file := filename, name := name, errors := reports }]) := by
  have hlen : 0 < reports.length := List.length_pos.2 hreports
  simp only [testGlobals, hn, Bool.not_true, Bool.false_eq_true, if_false,
    testErrorReporter_collects, List.nil_append, gt_iff_lt, hlen, and_self, if_true]

theorem testGlobals_quiet (failFast : Bool) (filename : GoString)
    (globals : List (GoString × Global)) (hq : quietGlobals globals) :
    testGlobals failFast filename globals = (none, ranOf filename globals) := by
  induction globals with
  | nil => rfl
  | cons g rest ih =>
    obtain ⟨name, fn⟩ := g
    have hrest : quietGlobals rest := fun n r e hmem hn => hq n r e (by simp [hmem]) hn
    have ih' := ih hrest
    cases hn : HasPrefix name "test_".toList with
    | false => rw [testGlobals_cons_skip _ _ _ _ _ hn, ranOf_cons_skip _ _ _ _ hn, ih']
    | true =>
      cases fn with
      | other => rw [testGlobals_cons_other, ranOf_cons_other, ih']
      | function reports err =>
        obtain ⟨hr, he⟩ := hq name reports err (by simp) hn
        subst hr
        subst he
        rw [testGlobals_cons_quiet _ _ _ _ hn, ranOf_cons_function _ _ _ _ _ hn, ih']

theorem testGlobals_first_failure (filename name : GoString)
    (pre post : List (GoString × Global)) (reports : List GoString) (err : Option Err)
    (hq : quietGlobals pre) (hname : HasPrefix name "test_".toList = true)
    (hreports : reports ≠ []) :
    testGlobals true filename (pre ++ (name, Global.function reports err) :: post) =
      (some Err.quiet,
        ranOf filename pre ++ [{ file := filename, name := name, errors := reports }]) := by
  induction pre with
  | nil =>
    rw [List.nil_append, testGlobals_cons_failure _ _ _ _ _ hname hreports]
    rfl
  | cons g rest ih =>
    obtain ⟨n, fn⟩ := g
    have hrest : quietGlobals rest := fun m r e hmem hm => hq m r e (by simp [hmem]) hm
    have ih' := ih hrest
    rw [List.cons_append]
    cases hn : HasPrefix n "test_".toList with
    | false => rw [testGlobals_cons_skip _ _ _ _ _ hn, ranOf_cons_skip _ _ _ _ hn, ih']
    | true =>
      cases fn with
      | other => rw [testGlobals_cons_other, ranOf_cons_other, ih']
      | function r e =>
        obtain ⟨hr, he⟩ := hq n r e (by simp) hn
        subst hr
        subst he
        rw [testGlobals_cons_quiet _ _ _ _ hn, ranOf_cons_function _ _ _ _ _ hn, ih']
        rfl

theorem testFiles_first_failure (ev : Evaluator (List (GoString × Global)))
    (filesBefore filesAfter : List GoString) (filename name : GoString)
    (pre post : List (GoString × Global)) (reports : List GoString) (err : Option Err)
    (hbefore : ∀ g ∈ filesBefore, ∃ globals, ev.ExecFile g = (some globals, none) ∧
      quietGlobals globals)
    (hfile : ev.ExecFile filename =
      (some (pre ++ (name, Global.function reports err) :: post), none))
    (hq : quietGlobals pre) (hname : HasPrefix name "test_".toList = true)
    (hreports : reports ≠ []) :
    testFiles true ev (filesBefore ++ filename :: filesAfter) =
      (some Err.quiet,
        (filesBefore.map (fun g => ranOf g ((ev.ExecFile g).1.getD []))).flatten ++
          (ranOf filename pre ++ [{ file := filename, name := name, errors := reports }])) := by
  induction filesBefore with
  | nil =>
    simp only [List.nil_append, List.map_nil, List.flatten_nil]
    unfold testFiles
    rw [hfile]
    simp only [Option.getD_some]
    rw [testGlobals_first_failure filename name pre post reports err hq hname hreports]
  | cons g rest ih =>
    obtain ⟨globals, hg, hgq⟩ := hbefore g (by simp)
    have ih' := ih (fun x hx => hbefore x (by simp [hx]))
    rw [List.cons_append]
    unfold testFiles
    rw [hg]
    simp only [Option.getD_some]
    rw [testGlobals_quiet true g globals hgq]
    simp only [ih', List.map_cons, List.flatten_cons, hg, Option.getD_some, List.append_assoc]

theorem testFiles_quiet (failFast : Bool) (ev : Evaluator (List (GoString × Global)))
    (files : List GoString)
    (hfiles : ∀ g ∈ files, ∃ globals, ev.ExecFile g = (some globals, none) ∧
      quietGlobals globals) :
    testFiles failFast ev files =
      (none, (files.map (fun g => ranOf g ((ev.ExecFile g).1.getD []))).flatten) := by
  induction files with
  | nil => rfl
  | cons g rest ih =>
    obtain ⟨globals, hg, hgq⟩ := hfiles g (by simp)
    have ih' := ih (fun x hx => hfiles x (by simp [hx]))
    unfold testFiles
    rw [hg]
    simp only [Option.getD_some]
    rw [testGlobals_quiet failFast g globals hgq]
    simp only [ih', List.map_cons, List.flatten_cons, hg, Option.getD_some]

/-- With `failFast` unset, the branch that `test` never takes, the loops run
every test function of every file and return nil as long as no call returns
an error, whatever failures were reported. -/
theorem testFiles_without_failFast (ev : Evaluator (List (GoString × Global)))
    (files : List GoString)
    (hfiles : ∀ g ∈ files, ∃ globals, ev.ExecFile g = (some globals, none) ∧
      ∀ name reports err, (name, Global.function reports err) ∈ globals → err = none) :
    testFiles false ev files =
      (none, (files.map (fun g => ranOf g ((ev.ExecFile g).1.getD []))).flatten) := by
  have hglobals : ∀ (filename : GoString) (globals : List (GoString × Global)),
      (∀ name reports err, (name, Global.function reports err) ∈ globals → err = none) →
      testGlobals false filename globals = (none, ranOf filename globals) := by
    intro filename globals
    induction globals with
    | nil => intro _; rfl
    | cons g rest ih =>
      intro hg
      obtain ⟨name, fn⟩ := g
      have ih' := ih (fun n r e hmem => hg n r e (by simp [hmem]))
      cases hn : HasPrefix name "test_".toList with
      | false => rw [testGlobals_cons_skip _ _ _ _ _ hn, ranOf_cons_skip _ _ _ _ hn, ih']
      | true =>
        cases fn with
        | other => rw [testGlobals_cons_other, ranOf_cons_other, ih']
        | function reports err =>
          have he := hg name reports err (by simp)
          subst he
          rw [ranOf_cons_function _ _ _ _ _ hn]
          simp only [testGlobals, hn, Bool.not_true, Bool.false_eq_true, if_false,
            testErrorReporter_collects, List.nil_append, and_false, ih']
  induction files with
  | nil => rfl
  | cons g rest ih =>
    obtain ⟨globals, hg, hgq⟩ := hfiles g (by simp)
    have ih' := ih (fun x hx => hfiles x (by simp [hx]))
    unfold testFiles
    rw [hg]
    simp only [Option.getD_some]
    rw [hglobals g globals hgq]
    simp only [ih', List.map_cons, List.flatten_cons, hg, Option.getD_some]

/-- C13 (as stated, refuted): a test run over `/proj/tests`, with nothing
asked for but the path; the files found are `a_test.bramble` and
`test_b.bramble`, the first of which defines `test_one`, reporting `boom`, and
`test_two`; the run returns `errQuiet` with `test_one` the only function
executed, so `test_two` and the functions of `test_b.bramble` are not run. -/
theorem C13_run_ends_at_first_failure :
    findTestFiles exampleProjectFiles exampleReadDir "/proj/tests".toList =
      (["/proj/tests/a_test.bramble".toList, "/proj/tests/test_b.bramble".toList], none) ∧
    exampleTests.ExecFile "/proj/tests/a_test.bramble".toList =
      (some [("test_one".toList, Global.function ["boom".toList] none),
             ("test_two".toList, Global.function [] none)], none) ∧
    freshBramble.test (exampleBramble, none) exampleProjectFiles exampleReadDir exampleTests
      ["/proj/tests".toList] =
      (some Err.quiet,
        [{ file := "/proj/tests/a_test.bramble".toList, name := "test_one".toList,
           errors := ["boom".toList] }]) := by
  decide

/-- C13 (amended): in a test run (`Bramble.test`, which always runs with
`failFast` set) whose initialisation succeeds and whose test files are found,
the first `test_` function that reports assertion failures ends the run: its
failures are collected by its own `testErrorReporter` in the order reported,
`test` returns `errQuiet` at once, and no function after it, in its file or in
a later file, is executed; the functions executed are those before it, none
of which reported a failure or returned an error. When no `test_` function of
any file reports a failure or returns an error, every one of them is executed
and `test` returns nil. -/
theorem C13_first_failure_ends_run (b b' : Bramble) (initRest : Bramble × Option Err)
    (fs : FileSystem) (readDir : GoString → Option (List GoString))
    (ev : Evaluator (List (GoString × Global))) (args files : List GoString)
    (hinit : b.init initRest = (b', none))
    (hfind : findTestFiles fs readDir
      (match args with
       | [] => ".".toList
       | a :: _ => a) = (files, none)) :
    (∀ (filesBefore filesAfter : List GoString) (filename name : GoString)
      (pre post : List (GoString × Global)) (reports : List GoString) (err : Option Err),
      files = filesBefore ++ filename :: filesAfter →
      (∀ g ∈ filesBefore, ∃ globals, ev.ExecFile g = (some globals, none) ∧
        quietGlobals globals) →
      ev.ExecFile filename =
        (some (pre ++ (name, Global.function reports err) :: post), none) →
      quietGlobals pre → HasPrefix name "test_".toList = true → reports ≠ [] →
      b.test initRest fs readDir ev args =
        (some Err.quiet,
          (filesBefore.map (fun g => ranOf g ((ev.ExecFile g).1.getD []))).flatten ++
            (ranOf filename pre ++
              [{ file := filename, name := name, errors := reports }]))) ∧
    ((∀ g ∈ files, ∃ globals, ev.ExecFile g = (some globals, none) ∧ quietGlobals globals) →
      b.test initRest fs readDir ev args =
        (none, (files.map (fun g => ranOf g ((ev.ExecFile g).1.getD []))).flatten)) := by
  have htest : b.test initRest fs readDir ev args = testFiles true ev files := by
    unfold Bramble.test
    simp only [hinit, hfind]
  constructor
  · intro filesBefore filesAfter filename name pre post reports err hfiles hbefore hfile hq
      hname hreports
    rw [htest, hfiles]
    exact testFiles_first_failure ev filesBefore filesAfter filename name pre post reports err
      hbefore hfile hq hname hreports
  · intro hquiet
    rw [htest]
    exact testFiles_quiet true ev files hquiet

/-- C13 (amended), instance: the run over `/proj/tests`, in which `test_one`
of `a_test.bramble` reports `boom`. -/
theorem C13_first_failure_ends_run_witness :
    freshBramble.test (exampleBramble, none) exampleProjectFiles exampleReadDir exampleTests
      ["/proj/tests".toList] =
      (some Err.quiet,
        (([] : List GoString).map
          (fun g => ranOf g ((exampleTests.ExecFile g).1.getD []))).flatten ++
          (ranOf "/proj/tests/a_test.bramble".toList [] ++
            [{ file := "/proj/tests/a_test.bramble".toList, name := "test_one".toList,
               errors := ["boom".toList] }])) :=
  (C13_first_failure_ends_run freshBramble exampleBramble (exampleBramble, none)
    exampleProjectFiles exampleReadDir exampleTests ["/proj/tests".toList]
    ["/proj/tests/a_test.bramble".toList, "/proj/tests/test_b.bramble".toList]
    (by decide) (by decide)).1 [] ["/proj/tests/test_b.bramble".toList]
    "/proj/tests/a_test.bramble".toList "test_one".toList []
    [("test_two".toList, Global.function [] none)] ["boom".toList] none
    rfl (fun g hg => absurd hg (List.not_mem_nil g)) (by decide)
    (fun _ _ _ hmem _ => absurd hmem (List.not_mem_nil _)) (by decide) (by decide)

/-! ## From a file to its module name and back (C14) -/

theorem Join_under (loc : GoString) (comps : List GoString)
    (habs : IsAbs loc = true) (hclean : Clean loc = loc) (hroot : loc ≠ ['/'])
    (hcomps : ∀ e ∈ comps, isFileName e) :
    Join [loc, joinSep comps] = (if comps = [] then loc else loc ++ '/' :: joinSep comps) ∧
    Join [loc, '/' :: joinSep comps] =
      (if comps = [] then loc else loc ++ '/' :: joinSep comps) := by
  have hne : loc ≠ [] := by
    obtain ⟨q, rfl⟩ := (IsAbs_iff loc).1 habs
    simp
  have hsplit1 : (splitSep (joinSep comps)).filter (fun e => decide (e ≠ [])) = comps := by
    by_cases hc : comps = []
    · subst hc
      simp [joinSep, splitSep]
    · rw [splitSep_joinSep comps hc (fun e he => (hcomps e he).2.2.2)]
      exact List.filter_eq_self.2 (fun e he => by simpa using (hcomps e he).1)
  have hplain1 : ∀ e ∈ splitSep (joinSep comps), e ≠ ['.'] ∧ e ≠ ['.', '.'] := by
    by_cases hc : comps = []
    · subst hc
      simp [joinSep, splitSep]
    · rw [splitSep_joinSep comps hc (fun e he => (hcomps e he).2.2.2)]
      exact fun e he => ⟨(hcomps e he).2.1, (hcomps e he).2.2.1⟩
  have hsplit2 : splitSep ('/' :: joinSep comps) = [] :: splitSep (joinSep comps) := by
    simp [splitSep]
  constructor
  · rw [Join_pair _ _ hne, Clean_append_of_clean loc _ habs hclean hplain1, hsplit1]
    by_cases hc : comps = [] <;> simp [hc, hroot]
  · rw [Join_pair _ _ hne, Clean_append_of_clean loc _ habs hclean (by
      rw [hsplit2]
      intro e he
      rcases List.mem_cons.1 he with h | h
      · subst h; simp
      · exact hplain1 e h), hsplit2, List.filter_cons_of_neg (by simp), hsplit1]
    by_cases hc : comps = [] <;> simp [hc, hroot]

theorem resolveModule_select {γ : Type} (b : Bramble) (fs : FileSystem) (ev : Evaluator γ)
    (module P : GoString) (hpre : HasPrefix module b.moduleName = true)
    (hP : Join [b.configLocation, module.drop b.moduleName.length] = P) :
    b.resolveModule fs ev module =
      if pathExists fs P = true ∧ fileExists fs (P ++ "/default.bramble".toList) = true then
        (ev.ExecFile (P ++ "/default.bramble".toList), [P ++ "/default.bramble".toList])
      else if fileExists fs (P ++ ".bramble".toList) = true then
        (ev.ExecFile (P ++ ".bramble".toList), [P ++ ".bramble".toList])
      else ((none, some Err.moduleDoesNotExist), []) := by
  simp only [Bramble.resolveModule, hpre, hP, show extension = ".bramble".toList from rfl]
  generalize "/default.bramble".toList = D
  generalize ".bramble".toList = E
  cases h1 : pathExists fs P <;> cases h2 : fileExists fs (P ++ D) <;>
    cases h3 : fileExists fs (P ++ E) <;> simp

/-- C14 (as stated, refuted): under `/proj` both `sub.bramble` and
`sub/default.bramble` exist; `FilepathToModuleName("/proj/sub.bramble")` is
`example.com/proj/sub`, and resolving that name hands
`/proj/sub/default.bramble` to the evaluator, not `/proj/sub.bramble`. -/
theorem C14_name_resolves_to_other_file :
    FileExists exampleProjectFiles "/proj/sub.bramble".toList = true ∧
    exampleProject.FilepathToModuleName exampleProjectFiles "/proj/sub.bramble".toList =
      ("example.com/proj/sub".toList, none) ∧
    exampleBramble.moduleName = exampleProject.moduleName ∧
    exampleBramble.configLocation = exampleProject.Location ∧
    (exampleBramble.resolveModule exampleProjectFiles exampleEvaluator
      (exampleProject.FilepathToModuleName exampleProjectFiles
        "/proj/sub.bramble".toList).1).2 = ["/proj/sub/default.bramble".toList] ∧
    (exampleBramble.resolveModule exampleProjectFiles exampleEvaluator
      (exampleProject.FilepathToModuleName exampleProjectFiles
        "/proj/sub.bramble".toList).1).2 ≠ ["/proj/sub.bramble".toList] := by
  decide

/-- C14 (amended): let `f` be an existing file given by its absolute path
under the project root, a cleaned absolute path other than `/`, in a directory
that exists, and let the `Bramble` value have the project's location and module
name. When `f` is named `default.bramble`, resolving the module name returned
by `FilepathToModuleName(f)` hands exactly `f` to the evaluator. When `f` is
`stem.bramble` with `stem` a file name and the name does not end in
`default.bramble`, resolving it hands over exactly `f`, unless the directory
`f` without the extension exists and holds a regular file `default.bramble`,
which is handed over instead. -/
theorem C14_round_trip {γ : Type} (p : Project) (b : Bramble) (fs : FileSystem)
    (ev : Evaluator γ) (dirs : List GoString) (file stem : GoString)
    (hname : b.moduleName = p.moduleName) (hloc : b.configLocation = p.Location)
    (habs : IsAbs p.Location = true) (hclean : Clean p.Location = p.Location)
    (hroot : p.Location ≠ ['/'])
    (hdirs : ∀ d ∈ dirs, isFileName d) (hfile : '/' ∉ file)
    (hstem : file = stem ++ BrambleExtension)
    (hex : FileExists fs (p.Location ++ '/' :: joinSep (dirs ++ [file])) = true)
    (hdir : pathExists fs (Join [p.Location, joinSep dirs]) = true) :
    (file = "default.bramble".toList →
      b.resolveModule fs ev
        (p.FilepathToModuleName fs (p.Location ++ '/' :: joinSep (dirs ++ [file]))).1 =
        (ev.ExecFile (p.Location ++ '/' :: joinSep (dirs ++ [file])),
          [p.Location ++ '/' :: joinSep (dirs ++ [file])])) ∧
    (HasSuffix file "default.bramble".toList = false → isFileName stem →
      b.resolveModule fs ev
        (p.FilepathToModuleName fs (p.Location ++ '/' :: joinSep (dirs ++ [file]))).1 =
        if pathExists fs (p.Location ++ '/' :: joinSep (dirs ++ [stem])) = true ∧
            fileExists fs (p.Location ++ '/' :: joinSep (dirs ++ [stem]) ++
              "/default.bramble".toList) = true then
          (ev.ExecFile (p.Location ++ '/' :: joinSep (dirs ++ [stem]) ++
              "/default.bramble".toList),
            [p.Location ++ '/' :: joinSep (dirs ++ [stem]) ++ "/default.bramble".toList])
        else
          (ev.ExecFile (p.Location ++ '/' :: joinSep (dirs ++ [file])),
            [p.Location ++ '/' :: joinSep (dirs ++ [file])])) := by
  obtain ⟨hdefault, hother⟩ := FilepathToModuleName_of_name p fs dirs file stem habs hclean
    hroot hdirs hfile hstem hex
  have hstarts : ∀ rest : GoString,
      HasPrefix (p.moduleName ++ '/' :: rest) b.moduleName = true := by
    intro rest
    rw [hname]
    exact (HasPrefix_iff _ _).2 (List.prefix_append _ _)
  have hdrop : ∀ rest : GoString,
      (p.moduleName ++ '/' :: rest).drop b.moduleName.length = '/' :: rest := by
    intro rest
    rw [hname]
    simp
  constructor
  · intro hdef
    rw [hdefault hdef]
    obtain ⟨hJ1, hJ2⟩ := Join_under p.Location dirs habs hclean hroot hdirs
    have hP : Join [b.configLocation, (p.moduleName ++ '/' :: joinSep dirs).drop
        b.moduleName.length] = Join [p.Location, joinSep dirs] := by
      rw [hdrop, hloc, hJ2, hJ1]
    have hf : p.Location ++ '/' :: joinSep (dirs ++ [file]) =
        Join [p.Location, joinSep dirs] ++ "/default.bramble".toList := by
      rw [hJ1, joinSep_concat, hdef]
      by_cases hd : dirs = []
      · simp [hd]
      · simp [hd]
    rw [resolveModule_select b fs ev _ _ (hstarts _) hP, ← hf]
    have hfe : fileExists fs (p.Location ++ '/' :: joinSep (dirs ++ [file])) = true := hex
    rw [if_pos ⟨hdir, hfe⟩]
  · intro hnot hstemName
    rw [hother hnot hstemName.1]
    have hcomps : ∀ e ∈ dirs ++ [stem], isFileName e := by
      intro e he
      rcases List.mem_append.1 he with h | h
      · exact hdirs e h
      · rw [List.mem_singleton.1 h]; exact hstemName
    obtain ⟨-, hJ2⟩ := Join_under p.Location (dirs ++ [stem]) habs hclean hroot hcomps
    rw [if_neg (by simp)] at hJ2
    have hP : Join [b.configLocation, (p.moduleName ++ '/' :: joinSep (dirs ++ [stem])).drop
        b.moduleName.length] = p.Location ++ '/' :: joinSep (dirs ++ [stem]) := by
      rw [hdrop, hloc, hJ2]
    have hf : p.Location ++ '/' :: joinSep (dirs ++ [file]) =
        p.Location ++ '/' :: joinSep (dirs ++ [stem]) ++ ".bramble".toList := by
      rw [joinSep_concat, joinSep_concat, hstem]
      by_cases hd : dirs = []
      · simp [hd, BrambleExtension]
      · simp [hd, BrambleExtension]
    rw [resolveModule_select b fs ev _ _ (hstarts _) hP, ← hf]
    have hfe : fileExists fs (p.Location ++ '/' :: joinSep (dirs ++ [file])) = true := hex
    rw [if_pos hfe]

/-- C14 (amended), instances: under `/proj`, the name of `sub/default.bramble`
resolves to that file, and the name of `sub.bramble` resolves to
`sub/default.bramble`, which exists beside it. -/
theorem C14_round_trip_witness :
    exampleBramble.resolveModule exampleProjectFiles exampleEvaluator
      (exampleProject.FilepathToModuleName exampleProjectFiles
        (exampleProject.Location ++ '/' ::
          joinSep (["sub".toList] ++ ["default.bramble".toList]))).1 =
      (exampleEvaluator.ExecFile (exampleProject.Location ++ '/' ::
          joinSep (["sub".toList] ++ ["default.bramble".toList])),
        [exampleProject.Location ++ '/' ::
          joinSep (["sub".toList] ++ ["default.bramble".toList])]) ∧
    (exampleBramble.resolveModule exampleProjectFiles exampleEvaluator
      (exampleProject.FilepathToModuleName exampleProjectFiles
        (exampleProject.Location ++ '/' :: joinSep ([] ++ ["sub.bramble".toList]))).1).2 =
      ["/proj/sub/default.bramble".toList] :=
  ⟨(C14_round_trip exampleProject exampleBramble exampleProjectFiles exampleEvaluator
      ["sub".toList] "default.bramble".toList "default".toList rfl rfl (by decide) (by decide)
      (by decide) (by decide) (by decide) (by decide) (by decide) (by decide)).1 rfl,
   (congrArg Prod.snd ((C14_round_trip exampleProject exampleBramble exampleProjectFiles
      exampleEvaluator [] "sub.bramble".toList "sub".toList rfl rfl (by decide) (by decide)
      (by decide) (by decide) (by decide) (by decide) (by decide) (by decide)).2
      (by decide) (by decide))).trans (by decide)⟩

/-! ## Test files (C17) -/

theorem Ext_of_extension (stem : GoString) : Ext (stem ++ extension) = extension := by
  have hrev : (stem ++ extension).reverse = "elbmarb.".toList ++ stem.reverse := by
    rw [List.reverse_append]
    rfl
  unfold Ext
  rw [hrev]
  have hlit : "elbmarb.".toList = ['e', 'l', 'b', 'm', 'a', 'r', 'b', '.'] := rfl
  rw [hlit]
  simp [extLoop, extension]

theorem isTestFile_iff (name : GoString) :
    isTestFile name = true ↔
      ∃ stem, name = stem ++ ".bramble".toList ∧
        ("test_".toList <+: stem ∨ "_test".toList <:+ stem) := by
  have hext : extension = ".bramble".toList := rfl
  unfold isTestFile
  rw [hext]
  constructor
  · intro h
    by_cases hs : HasSuffix name ".bramble".toList = true
    · obtain ⟨stem, hstem⟩ := (HasSuffix_iff _ _).1 hs
      refine ⟨stem, hstem.symm, ?_⟩
      have htake : name.take (name.length - ".bramble".toList.length) = stem := by
        rw [← hstem]
        simp
      simp only [hs, Bool.not_true, Bool.false_eq_true, if_false, htake, Bool.or_eq_true] at h
      rcases h with h | h
      · exact Or.inl ((HasPrefix_iff _ _).1 h)
      · exact Or.inr ((HasSuffix_iff _ _).1 h)
    · have hs' : HasSuffix name ".bramble".toList = false := by simpa using hs
      rw [hs'] at h
      simp at h
  · rintro ⟨stem, rfl, h⟩
    have hs : HasSuffix (stem ++ ".bramble".toList) ".bramble".toList = true :=
      (HasSuffix_iff _ _).2 (List.suffix_append _ _)
    have htake : (stem ++ ".bramble".toList).take
        ((stem ++ ".bramble".toList).length - ".bramble".toList.length) = stem := by
      simp
    simp only [hs, Bool.not_true, Bool.false_eq_true, if_false, htake, Bool.or_eq_true]
    rcases h with h | h
    · exact Or.inl ((HasPrefix_iff _ _).2 h)
    · exact Or.inr ((HasSuffix_iff _ _).2 h)

theorem findTestFilesLoop_eq (path : GoString) (files : List GoString) :
    ∀ testFiles : List GoString,
      findTestFilesLoop path files testFiles =
        testFiles ++ (files.filter isTestFile).map (fun name => Join [path, name]) := by
  induction files with
  | nil => intro testFiles; simp [findTestFilesLoop]
  | cons name files ih =>
    intro testFiles
    unfold findTestFilesLoop
    by_cases ht : isTestFile name = true
    · obtain ⟨stem, hstem, -⟩ := (isTestFile_iff name).1 ht
      have hE : Ext name = extension := by
        rw [hstem]
        exact Ext_of_extension stem
      simp [hE, ht, ih]
    · have hf : isTestFile name = false := by simpa using ht
      by_cases hE : Ext name = extension
      · simp [hE, hf, ih]
      · simp [hE, hf, ih]

/-- C17: `isTestFile(name)` holds exactly when `name` is some `stem` followed
by `.bramble` where `stem` starts with `test_` or ends with `_test`;
`findTestFiles(path)` returns `[path]` for a regular file `path`, otherwise
`[path + ".bramble"]` when that is a regular file, and otherwise, for the
entries that `ioutil.ReadDir(path)` lists, `path` joined with each entry whose
name satisfies `isTestFile`, in the order of the listing, without error (and
nothing but the error when `ioutil.ReadDir` fails). -/
theorem C17_test_files (fs : FileSystem) (readDir : GoString → Option (List GoString))
    (path : GoString) :
    (∀ name : GoString, isTestFile name = true ↔
      ∃ stem, name = stem ++ ".bramble".toList ∧
        ("test_".toList <+: stem ∨ "_test".toList <:+ stem)) ∧
    (fileExists fs path = true → findTestFiles fs readDir path = ([path], none)) ∧
    (fileExists fs path = false → fileExists fs (path ++ ".bramble".toList) = true →
      findTestFiles fs readDir path = ([path ++ ".bramble".toList], none)) ∧
    (fileExists fs path = false → fileExists fs (path ++ ".bramble".toList) = false →
      (∀ entries : List GoString, readDir path = some entries →
        findTestFiles fs readDir path =
          ((entries.filter isTestFile).map (fun name => Join [path, name]), none)) ∧
      (readDir path = none →
        findTestFiles fs readDir path = ([], some (Err.readDirFailed path)))) := by
  have hext : extension = ".bramble".toList := rfl
  refine ⟨isTestFile_iff, ?_, ?_, ?_⟩
  · intro h1
    simp [findTestFiles, h1]
  · intro h1 h2
    simp only [findTestFiles, h1, hext, h2]
    simp
  · intro h1 h2
    constructor
    · intro entries hentries
      simp only [findTestFiles, h1, hext, h2, hentries, findTestFilesLoop_eq]
      simp
    · intro hnone
      simp only [findTestFiles, h1, hext, h2, hnone]
      simp

/-- C17, instance: the directory `/proj/tests` lists `a_test.bramble`,
`helper.bramble`, `test_b.bramble` and `test_c.txt`; the first and the third are
returned, in that order. -/
theorem C17_test_files_witness :
    findTestFiles exampleProjectFiles exampleReadDir "/proj/tests".toList =
      (["/proj/tests/a_test.bramble".toList, "/proj/tests/test_b.bramble".toList], none) :=
  ((((C17_test_files exampleProjectFiles exampleReadDir "/proj/tests".toList).2.2.2
    (by decide) (by decide)).1) _ rfl).trans (by decide)

end BrambleModel
